import Mathlib

/- Verification development for the YTAI video-summary bot (src/main.py).

   The Python source is shallowly embedded:
   - network effects (Cobalt/Invidious mirrors, youtube_transcript_api,
     groq whisper transcription, Gemini generation, yt-dlp extraction) are
     supplied by oracle functions inside an `Env` record;
   - the /tmp filesystem is a map from paths to file sizes;
   - `random.shuffle` is modelled by quantifying over the shuffled order,
     which is a parameter (`cobaltOrder`, `invOrder`, shuffled key list);
   - a Python call that may raise is an oracle returning an `Option`/sum:
     `none` (or an error constructor) stands for the raised exception, which
     the embedding routes exactly where the source's `try/except` sends it.
-/

namespace YTAI

/-! ## Python string primitives
Character-accurate, structurally recursive models of the `str` operations
the source uses (`split`, `in`, `join`, slicing, `strip`), so that concrete
evaluations reduce inside the kernel. -/

/-- If `sep` is the leading run of `s`, return the rest of `s`. -/
def stripLead : List Char → List Char → Option (List Char)
  | [], s => some s
  | _ :: _, [] => none
  | c :: cs, d :: ds => if c = d then stripLead cs ds else none

/-- Worker for `pySplit`; the fuel argument keeps the recursion structural. -/
def splitChAux (sep : List Char) : Nat → List Char → List Char → List (List Char)
  | 0, acc, s => [acc.reverse ++ s]
  | _ + 1, acc, [] => [acc.reverse]
  | fuel + 1, acc, c :: rest =>
    match stripLead sep (c :: rest) with
    | some rem => acc.reverse :: splitChAux sep fuel [] rem
    | none => splitChAux sep fuel (c :: acc) rest

/-- Python `s.split(sep)` for a non-empty separator: non-overlapping
left-to-right cuts. -/
def pySplit (s sep : String) : List String :=
  (splitChAux sep.data (s.data.length + 1) [] s.data).map (fun l => ⟨l⟩)

/-- Python `sep in s`, the membership test used on URLs in
`get_video_content` (line 167/169 of src/main.py). -/
def hasSub (s sep : String) : Bool := (pySplit s sep).length != 1

/-- Python `sep.join l`. -/
def pyJoin (sep : String) : List String → String
  | [] => ""
  | x :: xs => xs.foldl (fun a b => a ++ sep ++ b) x

/-- Python `s[:n]` (slicing counts characters). -/
def pySlice (s : String) (n : Nat) : String := ⟨s.data.take n⟩

/-- Python `s.strip()`. -/
def pyStrip (s : String) : String :=
  ⟨((s.data.dropWhile Char.isWhitespace).reverse.dropWhile Char.isWhitespace).reverse⟩

/-- Python truthiness of the `full_text` variable: `None` and `""` are falsy
(the source guards every fallback strategy with `if not full_text`). -/
def isFalsy : Option String → Bool
  | none => true
  | some s => s.data.isEmpty

/-! ## The /tmp filesystem -/

/-- The temporary filesystem: a path is mapped to the size in bytes of the
file stored there (`none` = no file at that path). -/
def FS : Type := String → Option Nat

def emptyFS : FS := fun _ => none

/-- `open(p,'wb')` + write of `n` bytes. -/
def setFile (fs : FS) (p : String) (n : Nat) : FS :=
  fun q => if q = p then some n else fs q

/-- `os.remove(p)`. -/
def removeFile (fs : FS) (p : String) : FS :=
  fun q => if q = p then none else fs q

/-! ## Mirror pools (src/main.py lines 52-67) -/

def COBALT_INSTANCES : List String :=
  ["https://api.cobalt.tools", "https://cobalt.kwiatekmiki.com", "https://cobalt.q1.pm",
   "https://cobalt.kinuseka.net", "https://cobalt.wuk.sh"]

def INVIDIOUS_INSTANCES : List String :=
  ["https://inv.tux.pizza", "https://vid.puffyan.us", "https://invidious.jing.rocks",
   "https://inv.zzls.xyz", "https://invidious.nerdvpn.de"]

/-! ## download_via_cobalt (src/main.py lines 69-107) -/

/-- Observable outcome of one Cobalt instance interaction: the POST or the
download request raised before any byte was written (`netError`), non-200
status (`httpError`), JSON `status == "error"` (`jsonError`), missing `url`
field (`noUrl`), the streamed download raised mid-`iter_content` after
`size` bytes were already written to the artifact path (`partialFile` — the
bare `except: continue` on line 106 then skips both the size check and the
removal, so the partial file stays), or a complete audio download of `size`
bytes (`file`). -/
inductive CobaltStep
  | netError
  | httpError
  | jsonError
  | noUrl
  | partialFile (size : Nat)
  | file (size : Nat)
  deriving DecidableEq, Repr

/-- Line 94: `video_url.split("v=")[-1].split("&")[0]` — the query-parameter
id form (also shared with line 168). -/
def queryFormId (url : String) : String :=
  (pySplit ((pySplit url "v=").getLastD "") "&").headD ""

/-- Line 170: `video_url.split("/")[-1].split("?")[0]` — the path-segment id
form for youtu.be links. -/
def pathFormId (url : String) : String :=
  (pySplit ((pySplit url "/").getLastD "") "?").headD ""

/-- Lines 94-95: the Cobalt artifact path. URLs without `"v="` fall back to
the literal `"temp"` id. -/
def cobaltFilename (video_url : String) : String :=
  "/tmp/" ++ (if hasSub video_url "v=" then queryFormId video_url else "temp") ++ "_cob.mp3"

/-- Line 135: the Invidious artifact path, from the already-extracted id. -/
def invFilename (video_id : String) : String := "/tmp/" ++ video_id ++ "_inv.mp3"

/-- Lines 80-107: iterate the (shuffled) instance list; a pre-download
failure continues to the next instance; a download that raises mid-stream
leaves its partial bytes on disk and continues (line 106); a complete
download under 10240 bytes is removed and also continues; a complete file
of at least 10240 bytes is returned. A later write to the same path
truncates (`open(filename, 'wb')`), so it replaces any earlier partial. -/
def download_via_cobalt (o : String → CobaltStep) (video_url : String) :
    List String → FS → Option String × FS
  | [], fs => (none, fs)
  | _instUrl :: rest, fs =>
    match o _instUrl with
    | .file size =>
      let p := cobaltFilename video_url
      let fs1 := setFile fs p size
      if size < 10240 then download_via_cobalt o video_url rest (removeFile fs1 p)
      else (some p, fs1)
    | .partialFile size =>
      download_via_cobalt o video_url rest (setFile fs (cobaltFilename video_url) size)
    | _ => download_via_cobalt o video_url rest fs

/-! ## download_via_invidious (src/main.py lines 109-146) -/

/-- Observable outcome of one Invidious instance interaction: a request
raised before any byte was written (`netError`), non-200 (`httpError`), no
`adaptiveFormats` key (`noFormats`), no matching audio stream url
(`noAudio`), a streamed download that raised mid-`iter_content` after
`size` bytes were written (`partialFile` — line 145's bare
`except: continue` leaves the partial file on disk), or a complete download
of `size` bytes (`file`). -/
inductive InvStep
  | netError
  | httpError
  | noFormats
  | noAudio
  | partialFile (size : Nat)
  | file (size : Nat)
  deriving DecidableEq, Repr

/-- Lines 113-146: same polling shape as Cobalt, keyed by the video id. -/
def download_via_invidious (o : String → InvStep) (video_id : String) :
    List String → FS → Option String × FS
  | [], fs => (none, fs)
  | _instUrl :: rest, fs =>
    match o _instUrl with
    | .file size =>
      let p := invFilename video_id
      let fs1 := setFile fs p size
      if size < 10240 then download_via_invidious o video_id rest (removeFile fs1 p)
      else (some p, fs1)
    | .partialFile size =>
      download_via_invidious o video_id rest (setFile fs (invFilename video_id) size)
    | _ => download_via_invidious o video_id rest fs

/-! ## The acquisition orchestrator get_video_content (src/main.py 165-262) -/

/-- A subtitle track as returned by `YouTubeTranscriptApi.list_transcripts`:
a language code plus the `'text'` fields of its fetched segments. -/
structure Track where
  language : String
  segments : List String
  deriving DecidableEq, Repr

/-- Outcome of the yt-dlp extraction (lines 236-239): `err` = the call
raised, `noInfo` = falsy info / missing file, or a downloaded file. -/
inductive YtdlpStep
  | err
  | noInfo
  | file (name : String) (size : Nat)
  deriving DecidableEq, Repr

/-- All external nondeterminism of one pipeline run. `listTranscripts = none`
models `YouTubeTranscriptApi.list_transcripts` (or the subsequent fetch)
raising. `groq path size` models the whisper transcription of the file at
`path` whose content has `size` bytes; `none` = the call raised. `cookies`
records whether the `YOUTUBE_COOKIES` variable is set. -/
structure Env where
  listTranscripts : Option (List Track)
  cobaltOrder : List String
  cobalt : String → CobaltStep
  invOrder : List String
  inv : String → InvStep
  ytdlp : YtdlpStep
  groq : String → Nat → Option String
  cookies : Bool

/-- The four acquisition strategies of `get_video_content`, in source order:
official captions, Cobalt mirror pool, Invidious mirror pool, yt-dlp. -/
inductive Strategy
  | sA
  | sB
  | sC
  | sD
  deriving DecidableEq, Repr

/-- Orchestrator-internal state threaded between strategies: the Python
locals `full_text` and `source_type`, the filesystem, and the list of
strategies entered so far (instrumentation recording control flow). -/
structure StState where
  ft : Option String
  tag : String
  fs : FS
  tried : List Strategy

/-- Result of a `get_video_content` run: the returned pair plus the final
filesystem, the strategy trace, and the extracted video id. -/
structure OrchOut where
  tag : String
  text : String
  fs : FS
  tried : List Strategy
  vid : Option String

/-- Lines 166-172: video id extraction; the `"v="` query form is checked
first, then the youtu.be path form, otherwise the terminal error. -/
def extractVideoId (url : String) : Option String :=
  if hasSub url "v=" then some (queryFormId url)
  else if hasSub url "youtu.be" then some (pathFormId url)
  else none

/-- Lines 177-183, strategy A: `list(list_transcripts(video_id))[0]` (an
empty list raises IndexError into the bare `except`), segments joined with
single spaces. `full_text` starts as `None` and `source_type` as `"未知"`. -/
def stateA (env : Env) (fs0 : FS) : StState :=
  match env.listTranscripts with
  | some (t :: _) => ⟨some (pyJoin " " t.segments), "CC字幕(官方)", fs0, [.sA]⟩
  | _ => ⟨none, "未知", fs0, [.sA]⟩

/-- Lines 185-197, strategy B: entered only when `full_text` is falsy.
On a download, transcribe the artifact; on transcription success the
artifact is removed (line 196); if the transcription call raises, the bare
`except: pass` on line 197 is reached *before* the removal line runs, so
the artifact stays on disk. -/
def tryCobaltS (env : Env) (url : String) (s : StState) : StState :=
  if isFalsy s.ft then
    match download_via_cobalt env.cobalt url env.cobaltOrder s.fs with
    | (some p, fs1) =>
      match env.groq p ((fs1 p).getD 0) with
      | some t => ⟨some t, "語音轉錄(Cobalt)", removeFile fs1 p, s.tried ++ [.sB]⟩
      | none => ⟨s.ft, s.tag, fs1, s.tried ++ [.sB]⟩
    | (none, fs1) => ⟨s.ft, s.tag, fs1, s.tried ++ [.sB]⟩
  else s

/-- Lines 199-211, strategy C: identical shape to strategy B over the
Invidious pool, keyed by the extracted video id. -/
def tryInvidiousS (env : Env) (vid : String) (s : StState) : StState :=
  if isFalsy s.ft then
    match download_via_invidious env.inv vid env.invOrder s.fs with
    | (some p, fs1) =>
      match env.groq p ((fs1 p).getD 0) with
      | some t => ⟨some t, "語音轉錄(Invidious)", removeFile fs1 p, s.tried ++ [.sC]⟩
      | none => ⟨s.ft, s.tag, fs1, s.tried ++ [.sC]⟩
    | (none, fs1) => ⟨s.ft, s.tag, fs1, s.tried ++ [.sC]⟩
  else s

/-- Lines 213-255, strategy D: yt-dlp writes the artifact; a file of size
strictly above 10240 is transcribed and then removed (line 249); a smaller
file is removed untranscribed; if the transcription call raises, the
`except` on line 250 skips the removal and the artifact stays. The cookie
temp file has its own `try/finally` and is not an audio artifact, so it is
not tracked in `FS`. -/
def tryYtdlpS (env : Env) (s : StState) : StState :=
  if isFalsy s.ft then
    match env.ytdlp with
    | .file name size =>
      if 10240 < size then
        match env.groq name size with
        | some t => ⟨some t, "語音轉錄(yt-dlp)",
            removeFile (setFile s.fs name size) name, s.tried ++ [.sD]⟩
        | none => ⟨s.ft, s.tag, setFile s.fs name size, s.tried ++ [.sD]⟩
      else ⟨s.ft, s.tag, removeFile (setFile s.fs name size) name, s.tried ++ [.sD]⟩
    | _ => ⟨s.ft, s.tag, s.fs, s.tried ++ [.sD]⟩
  else s

/-- Line 258: the all-strategies-failed message. -/
def failAllMsg : String :=
  "所有方法皆失效。請確認影片是否有版權限制，或嘗試在 Render 設定 YOUTUBE_COOKIES。"

/-- The cascade of the four strategies in source order. -/
def runStrategies (env : Env) (url vid : String) (fs0 : FS) : StState :=
  tryYtdlpS env (tryInvidiousS env vid (tryCobaltS env url (stateA env fs0)))

/-- Lines 165-262: the full acquisition pipeline. -/
def get_video_content (env : Env) (url : String) (fs0 : FS) : OrchOut :=
  match extractVideoId url with
  | none => ⟨"錯誤", "無法辨識網址", fs0, [], none⟩
  | some vid =>
    let s4 := runStrategies env url vid fs0
    if isFalsy s4.ft then ⟨"失敗", failAllMsg, s4.fs, s4.tried, some vid⟩
    else ⟨s4.tag, s4.ft.getD "", s4.fs, s4.tried, some vid⟩

/-! ## The generation invoker summarize_text (src/main.py 265-302) -/

/-- Line 33: `[k for k in raw_keys if k and k.strip()]` (a `None` entry and
an empty or whitespace-only string are filtered out). -/
def apiKeyPool (raw : List (Option String)) : List String :=
  raw.filterMap fun k? =>
    match k? with
    | none => none
    | some k =>
      if k.data.isEmpty then none
      else if (pyStrip k).data.isEmpty then none
      else some k

/-- Lines 272-277: the fixed model priority list. -/
def priority_models : List String :=
  ["gemini-2.5-flash", "gemini-2.0-flash-exp", "gemini-2.5-flash-lite",
   "gemini-2.0-flash-lite-preview-02-05"]

/-- Lines 266-270: the prompt template with the input truncated to 30000
characters. -/
def mkPrompt (text : String) : String :=
  "\n    你是一位專業主編。請閱讀以下影片內容，用「繁體中文」撰寫一篇重點懶人包。\n    【內容】\n    "
    ++ pySlice text 30000 ++ "\n    "

/-- Line 302: the failure string carrying the last error. -/
def failStr (e : String) : String := "AI 生成失敗。原因: " ++ e

/-- Inner loop, lines 286-300: for each model, one generation attempt via
`gen key model prompt` (`Except.error e` = the call raised with message `e`,
caught on line 291); on success return the text; otherwise record the error
and continue. Returns (success text?, last error, attempted pairs). -/
def modelLoop (gen : String → String → String → Except String String)
    (prompt key : String) :
    List String → String → Option String × String × List (String × String)
  | [], lastErr => (none, lastErr, [])
  | m :: ms, lastErr =>
    match gen key m prompt with
    | .ok t => (some t, lastErr, [(key, m)])
    | .error e =>
      let r := modelLoop gen prompt key ms e
      (r.1, r.2.1, (key, m) :: r.2.2)

/-- Outer loop, lines 284-300: for each credential (already shuffled), walk
the model list; `genai.configure` has no observable effect in the model. -/
def genLoop (gen : String → String → String → Except String String)
    (prompt : String) :
    List String → String → String × List (String × String)
  | [], lastErr => (failStr lastErr, [])
  | k :: ks, lastErr =>
    match modelLoop gen prompt k priority_models lastErr with
    | (some t, _, att) => (t, att)
    | (none, e, att) =>
      let r := genLoop gen prompt ks e
      (r.1, att ++ r.2)

/-- Lines 265-302: the generation invoker over the shuffled key list.
Returns the result string and the list of attempted (credential, model)
pairs in attempt order. Total by construction: no exception escapes. -/
def summarize_text (gen : String → String → String → Except String String)
    (keysShuffled : List String) (text : String) : String × List (String × String) :=
  genLoop gen (mkPrompt text) keysShuffled ""

/-- The full credential×model matrix in attempt order. -/
def matrixOf (keys : List String) : List (String × String) :=
  keys.flatMap fun k => priority_models.map fun m => (k, m)

/-- Streamlined single-loop form of the matrix walk, used to state and prove
properties of `summarize_text` (proved equal to it below). -/
def runMatrix (gen : String → String → String → Except String String)
    (prompt : String) :
    List (String × String) → String → String × List (String × String)
  | [], lastErr => (failStr lastErr, [])
  | p :: rest, lastErr =>
    match gen p.1 p.2 prompt with
    | .ok t => (t, [p])
    | .error e =>
      let r := runMatrix gen prompt rest e
      (r.1, p :: r.2)

/-! ## The background task process_video_task (src/main.py 305-322) -/

/-- Lines 305-315: the message pushed to the user. A failure tag forwards
the reason; otherwise `summarize_text` is invoked on the acquired content
and its output embedded in the success message. -/
def process_video_task (env : Env)
    (gen : String → String → String → Except String String)
    (keysShuffled : List String) (url : String) (fs0 : FS) : String :=
  let r := get_video_content env url fs0
  if r.tag == "失敗" || r.tag == "錯誤" then "❌ " ++ r.text
  else "✅ 分析完成 (" ++ r.tag ++ ")\n\n" ++ (summarize_text gen keysShuffled r.text).1

/-! ## Spec-side definitions (for refinement comparisons) -/

/-- Modelled from the spec: the fixed language-priority order of §3/§4.1 —
target-language variants (the bot writes Traditional Chinese), then the
regional sibling set, then the fallback language. The concrete codes stand
in for the spec's unnamed lists; the source has no counterpart. -/
def specLangPriority : List String := ["zh-TW", "zh-Hant", "zh", "zh-HK", "zh-CN", "en"]

/-- Modelled from the spec: select the first track matching the
language-priority order, and only if none matches take the first track in
the returned list. The source has no counterpart (it always takes index 0). -/
def specSelectTrack (tracks : List Track) : Option Track :=
  match specLangPriority.filterMap (fun c => tracks.find? fun t => t.language == c) with
  | t :: _ => some t
  | [] => tracks.head?

/-- The track selection the source actually performs (line 180:
`list(transcript_list)[0]`). -/
def codeSelectTrack (tracks : List Track) : Option Track := tracks.head?

/-- The strategy trace that each possible result tag of `get_video_content`
determines: the cascade runs in the fixed order A, B, C, D, enters a later
strategy only while `full_text` is falsy, and stops at the first success. -/
def expectedTried (tag : String) : List Strategy :=
  if tag = "錯誤" then []
  else if tag = "CC字幕(官方)" then [.sA]
  else if tag = "語音轉錄(Cobalt)" then [.sA, .sB]
  else if tag = "語音轉錄(Invidious)" then [.sA, .sB, .sC]
  else [.sA, .sB, .sC, .sD]

/-- The two failure tags of the orchestrator. -/
def isFailTag (tag : String) : Bool := tag == "錯誤" || tag == "失敗"

/-- The four success (source-strategy) tags of the orchestrator. -/
def isSuccessTag (tag : String) : Bool :=
  tag == "CC字幕(官方)" || tag == "語音轉錄(Cobalt)" ||
  tag == "語音轉錄(Invidious)" || tag == "語音轉錄(yt-dlp)"

/-! ## Concrete fixtures for witnesses and counterexamples -/

/-- A generation oracle on which every attempt raises with message `"E"`. -/
def genAllErr : String → String → String → Except String String :=
  fun _ _ _ => Except.error "E"

/-- A generation oracle on which every attempt succeeds with text `t`. -/
def genOk (t : String) : String → String → String → Except String String :=
  fun _ _ _ => Except.ok t

/-- A Cobalt pool where every instance behaves the same. -/
def cobAlways (st : CobaltStep) : String → CobaltStep := fun _ => st

/-- An Invidious pool where every instance behaves the same. -/
def invAlways (st : InvStep) : String → InvStep := fun _ => st

/-- A whisper oracle whose every call raises. -/
def groqNone : String → Nat → Option String := fun _ _ => none

/-- A whisper oracle whose every call returns transcript `t`. -/
def groqConst (t : String) : String → Nat → Option String := fun _ _ => some t

/-- Run where the Cobalt artifact is obtained and every transcription call
raises: exercises the leak path of strategy B. -/
def envC1x : Env :=
  ⟨none, ["i"], cobAlways (.file 20000), ["j"], invAlways .netError, .err, groqNone, false⟩

/-- Same run but every transcription call succeeds. -/
def envC1w : Env :=
  ⟨none, ["i"], cobAlways (.file 20000), ["j"], invAlways .netError, .err,
   groqConst "T", false⟩

/-- Run where the Cobalt download raises mid-stream after 5000 bytes were
written: the partial artifact is left on disk and no transcription call is
ever made on it (the whisper oracle never raises in this run). -/
def envC1p : Env :=
  ⟨none, ["i"], cobAlways (.partialFile 5000), ["j"], invAlways .netError, .err,
   groqConst "T", false⟩

/-- Run where Cobalt yields a 30 MB artifact (31457280 bytes, above the
spec's 24 MB routing threshold) and transcription succeeds. -/
def envC2c : Env :=
  ⟨none, ["i"], cobAlways (.file 31457280), [], invAlways .netError, .err,
   groqConst "transcribed", false⟩

/-- Run where Cobalt yields nothing and Invidious serves a 30 MB artifact. -/
def envC2i : Env :=
  ⟨none, ["i"], cobAlways .netError, ["j"], invAlways (.file 31457280), .err,
   groqConst "transcribed", false⟩

/-- Run where both mirror pools yield nothing and yt-dlp extracts a 30 MB
artifact. -/
def envC2y : Env :=
  ⟨none, [], cobAlways .netError, [], invAlways .netError,
   .file "/tmp/abc.webm" 31457280, groqConst "transcribed", false⟩

/-- Run where the authoritative source lists an English track first and a
zh-TW (target-language) track second. -/
def envC3c : Env :=
  ⟨some [⟨"en", ["hello"]⟩, ⟨"zh-TW", ["哈囉"]⟩], [], cobAlways .netError, [],
   invAlways .netError, .err, groqNone, false⟩

/-- Run where every strategy yields nothing. -/
def envAllFail : Env :=
  ⟨none, [], cobAlways .netError, [], invAlways .netError, .err, groqNone, false⟩

/-- Cobalt pool for the C7 witness: instance `"a"` serves an undersized
(100-byte) file, every other instance times out. -/
def oC7c : String → CobaltStep := fun i => if i = "a" then .file 100 else .netError

/-- Invidious pool for the C7 witness, same shape. -/
def oC7i : String → InvStep := fun i => if i = "a" then .file 100 else .netError

/-! ## Lemmas about the generation invoker -/

theorem runMatrix_seg (gen : String → String → String → Except String String)
    (prompt key : String) (models : List String) (more : List (String × String))
    (le : String) :
    runMatrix gen prompt ((models.map fun m => (key, m)) ++ more) le =
      (match modelLoop gen prompt key models le with
      | (some t, _, _att) => (t, _att)
      | (none, e, _att) =>
        ((runMatrix gen prompt more e).1, _att ++ (runMatrix gen prompt more e).2)) := by
  induction models generalizing le with
  | nil => simp [modelLoop, runMatrix]
  | cons m ms ih =>
    cases hg : gen key m prompt with
    | ok t => simp [runMatrix, modelLoop, hg]
    | error e =>
      simp only [List.map_cons, List.cons_append, runMatrix, modelLoop, hg, List.append_eq]
      rw [ih]
      rcases hm : modelLoop gen prompt key ms e with ⟨o, e2, att⟩
      cases o <;> simp

theorem matrixOf_cons (k : String) (ks : List String) :
    matrixOf (k :: ks) = (priority_models.map fun m => (k, m)) ++ matrixOf ks := by
  simp [matrixOf]

/-- The nested credential/model loops of `summarize_text` walk exactly the
flattened credential×model matrix. -/
theorem summarize_eq_runMatrix (gen : String → String → String → Except String String)
    (keys : List String) (text : String) :
    summarize_text gen keys text = runMatrix gen (mkPrompt text) (matrixOf keys) "" := by
  suffices h : ∀ le, genLoop gen (mkPrompt text) keys le
      = runMatrix gen (mkPrompt text) (matrixOf keys) le by
    simpa [summarize_text] using h ""
  induction keys with
  | nil => intro le; simp [genLoop, matrixOf, runMatrix]
  | cons k ks ih =>
    intro le
    rw [matrixOf_cons, runMatrix_seg]
    rcases hm : modelLoop gen (mkPrompt text) k priority_models le with ⟨o, e2, att⟩
    cases o <;> simp [genLoop, hm, ih]

theorem runMatrix_att_take (gen : String → String → String → Except String String)
    (prompt : String) :
    ∀ (l : List (String × String)) (le : String),
      ∃ n, (runMatrix gen prompt l le).2 = l.take n := by
  intro l
  induction l with
  | nil => exact fun _ => ⟨0, by simp [runMatrix]⟩
  | cons p rest ih =>
    intro le
    cases hg : gen p.1 p.2 prompt with
    | ok t => exact ⟨1, by simp [runMatrix, hg]⟩
    | error e =>
      obtain ⟨n, hn⟩ := ih e
      exact ⟨n + 1, by simp [runMatrix, hg, hn]⟩

theorem runMatrix_att_ne_nil (gen : String → String → String → Except String String)
    (prompt : String) (p : String × String) (rest : List (String × String))
    (le : String) : (runMatrix gen prompt (p :: rest) le).2 ≠ [] := by
  cases hg : gen p.1 p.2 prompt <;> simp [runMatrix, hg]

theorem runMatrix_dropLast_err (gen : String → String → String → Except String String)
    (prompt : String) :
    ∀ (l : List (String × String)) (le : String) (p : String × String),
      p ∈ (runMatrix gen prompt l le).2.dropLast →
      ∃ e, gen p.1 p.2 prompt = Except.error e := by
  intro l
  induction l with
  | nil => intro le p hp; simp [runMatrix] at hp
  | cons q rest ih =>
    intro le p hp
    cases hg : gen q.1 q.2 prompt with
    | ok t => simp [runMatrix, hg] at hp
    | error e =>
      simp only [runMatrix, hg] at hp
      cases hr : (runMatrix gen prompt rest e).2 with
      | nil => rw [hr] at hp; simp at hp
      | cons x xs =>
        rw [hr] at hp
        rw [List.dropLast_cons₂] at hp
        rcases List.mem_cons.mp hp with h | h
        · exact ⟨e, h ▸ hg⟩
        · exact ih e p (by rw [hr]; exact h)

theorem runMatrix_last_ok (gen : String → String → String → Except String String)
    (prompt : String) :
    ∀ (l : List (String × String)) (le : String) (p : String × String) (t : String),
      (runMatrix gen prompt l le).2.getLast? = some p →
      gen p.1 p.2 prompt = Except.ok t →
      (runMatrix gen prompt l le).1 = t := by
  intro l
  induction l with
  | nil => intro le p t hp; simp [runMatrix] at hp
  | cons q rest ih =>
    intro le p t hp hok
    cases hg : gen q.1 q.2 prompt with
    | ok u =>
      simp only [runMatrix, hg] at hp ⊢
      have hq : q = p := by simpa using hp
      subst hq
      rw [hg] at hok
      exact ((Except.ok.injEq u t).mp hok)
    | error e =>
      simp only [runMatrix, hg] at hp ⊢
      cases hrl : (runMatrix gen prompt rest e).2 with
      | nil =>
        cases hrest : rest with
        | cons y ys =>
          exact absurd (hrest ▸ hrl) (runMatrix_att_ne_nil gen prompt y ys e)
        | nil =>
          rw [hrl] at hp
          have hq : q = p := by simpa using hp
          subst hq
          rw [hg] at hok
          exact absurd hok (by simp)
      | cons x xs =>
        rw [hrl, List.getLast?_cons_cons] at hp
        exact ih e p t (by rw [hrl]; exact hp) hok

theorem runMatrix_all_err (gen : String → String → String → Except String String)
    (prompt : String) :
    ∀ (l : List (String × String)) (le : String),
      (∀ p ∈ l, ∃ e, gen p.1 p.2 prompt = Except.error e) →
      ∃ e, runMatrix gen prompt l le = (failStr e, l) ∧
        ((l = [] ∧ e = le) ∨
          (∃ p, l.getLast? = some p ∧ gen p.1 p.2 prompt = Except.error e)) := by
  intro l
  induction l with
  | nil => intro le _; exact ⟨le, by simp [runMatrix], Or.inl ⟨rfl, rfl⟩⟩
  | cons q rest ih =>
    intro le h
    obtain ⟨e, hg⟩ := h q (List.mem_cons_self q rest)
    obtain ⟨e2, hr, hcase⟩ := ih e fun p hp => h p (List.mem_cons_of_mem q hp)
    refine ⟨e2, by simp [runMatrix, hg, hr], Or.inr ?_⟩
    rcases hcase with ⟨hrest, hee⟩ | ⟨p, hp, hgp⟩
    · subst hrest
      exact ⟨q, by simp, hee ▸ hg⟩
    · cases hrest : rest with
      | nil => rw [hrest] at hp; simp at hp
      | cons y ys =>
        subst hrest
        refine ⟨p, ?_, hgp⟩
        rw [List.getLast?_cons_cons]
        exact hp

theorem matrixOf_length (keys : List String) :
    (matrixOf keys).length = keys.length * priority_models.length := by
  induction keys with
  | nil => simp [matrixOf]
  | cons k ks ih => simp [matrixOf_cons, ih, Nat.succ_mul, Nat.add_comm]

theorem mem_matrixOf_fst (keys : List String) (p : String × String)
    (hp : p ∈ matrixOf keys) : p.1 ∈ keys := by
  induction keys with
  | nil => simp [matrixOf] at hp
  | cons k ks ih =>
    rw [matrixOf_cons, List.mem_append] at hp
    rcases hp with h | h
    · obtain ⟨m, _, hm⟩ := List.mem_map.mp h
      rw [← hm]
      exact List.mem_cons_self k ks
    · exact List.mem_cons_of_mem k (ih h)

theorem matrixOf_nodup (keys : List String) (h : keys.Nodup) :
    (matrixOf keys).Nodup := by
  induction keys with
  | nil => simp [matrixOf]
  | cons k ks ih =>
    rw [matrixOf_cons, List.nodup_append]
    obtain ⟨hk, hks⟩ := List.nodup_cons.mp h
    refine ⟨?_, ih hks, ?_⟩
    · refine List.Nodup.map (fun a b hab => ?_) (by decide)
      exact congrArg Prod.snd hab
    · intro p hp1 hp2
      obtain ⟨m, _, hm⟩ := List.mem_map.mp hp1
      have : p.1 ∈ ks := mem_matrixOf_fst ks p hp2
      rw [← hm] at this
      exact hk this

theorem apiKeyPool_good (raw : List (Option String)) :
    (apiKeyPool raw).all (fun k => !k.data.isEmpty && !(pyStrip k).data.isEmpty) = true := by
  rw [List.all_eq_true]
  intro k hk
  simp only [apiKeyPool, List.mem_filterMap] at hk
  obtain ⟨a, _, ha⟩ := hk
  cases a with
  | none => simp at ha
  | some s =>
    by_cases h1 : s.data.isEmpty
    · simp [h1] at ha
    · by_cases h2 : (pyStrip s).data.isEmpty
      · simp [h1, h2] at ha
      · simp only [if_neg h1, if_neg h2, Option.some.injEq] at ha
        subst ha
        simp [h1, h2]

/-- Claim C4: for a credential pool of size K and the fixed model list of
size M, `summarize_text` walks the matrix in order (credentials in the given
shuffled order, models in the fixed priority order), attempts each
(credential, model) pair at most once — hence at most K×M attempts — every
attempt before the last one failed, and if the last attempt succeeded its
text is returned with no further attempts. -/
theorem c4_matrix_attempts (gen : String → String → String → Except String String)
    (keys : List String) (text : String) :
    (∃ n, (summarize_text gen keys text).2 = (matrixOf keys).take n) ∧
    (summarize_text gen keys text).2.length ≤ keys.length * priority_models.length ∧
    (keys.Nodup → (summarize_text gen keys text).2.Nodup) ∧
    (∀ p ∈ (summarize_text gen keys text).2.dropLast,
        ∃ e, gen p.1 p.2 (mkPrompt text) = Except.error e) ∧
    (∀ p t, (summarize_text gen keys text).2.getLast? = some p →
        gen p.1 p.2 (mkPrompt text) = Except.ok t →
        (summarize_text gen keys text).1 = t) := by
  rw [summarize_eq_runMatrix]
  obtain ⟨n, hn⟩ := runMatrix_att_take gen (mkPrompt text) (matrixOf keys) ""
  refine ⟨⟨n, hn⟩, ?_, ?_, ?_, ?_⟩
  · rw [hn, ← matrixOf_length keys]
    simpa using List.length_take_le n (matrixOf keys)
  · intro hk
    rw [hn]
    exact (matrixOf_nodup keys hk).sublist (List.take_sublist n (matrixOf keys))
  · exact runMatrix_dropLast_err gen (mkPrompt text) (matrixOf keys) ""
  · exact runMatrix_last_ok gen (mkPrompt text) (matrixOf keys) ""

/-- Witness for C4 at a concrete pool of two distinct keys and an
all-failing generation oracle: 8 = 2×4 attempts, all pairs distinct,
in matrix order, and a concrete early attempt indeed errored. -/
theorem c4_matrix_attempts_witness :
    (summarize_text genAllErr ["k1", "k2"] "T").2.Nodup ∧
    (∃ n, (summarize_text genAllErr ["k1", "k2"] "T").2 = (matrixOf ["k1", "k2"]).take n) ∧
    (∃ e, genAllErr "k1" "gemini-2.5-flash" (mkPrompt "T") = Except.error e) := by
  refine ⟨(c4_matrix_attempts genAllErr ["k1", "k2"] "T").2.2.1 (by decide),
    (c4_matrix_attempts genAllErr ["k1", "k2"] "T").1,
    (c4_matrix_attempts genAllErr ["k1", "k2"] "T").2.2.2.1 ("k1", "gemini-2.5-flash")
      (by decide)⟩

/-- Claim C5: when every (credential, model) attempt fails, `summarize_text`
returns the failure string carrying the last observed error — the error of
the final matrix entry — and (being a total function of its oracles, with
every attempt exception caught on line 291) raises nothing to its caller. -/
theorem c5_exhaustion_returns_last_error
    (gen : String → String → String → Except String String)
    (keys : List String) (text : String)
    (h : ∀ p ∈ matrixOf keys, ∃ e, gen p.1 p.2 (mkPrompt text) = Except.error e) :
    ∃ e, (summarize_text gen keys text).1 = failStr e ∧
      (summarize_text gen keys text).2 = matrixOf keys ∧
      ((matrixOf keys = [] ∧ e = "") ∨
        (∃ p, (matrixOf keys).getLast? = some p ∧
          gen p.1 p.2 (mkPrompt text) = Except.error e)) := by
  rw [summarize_eq_runMatrix]
  obtain ⟨e, hr, hcase⟩ := runMatrix_all_err gen (mkPrompt text) (matrixOf keys) "" h
  exact ⟨e, by rw [hr], by rw [hr], hcase⟩

/-- Witness for C5: one key, all four model attempts raise with `"E"`; the
result is the failure string with that error. -/
theorem c5_exhaustion_returns_last_error_witness :
    ∃ e, (summarize_text genAllErr ["k"] "T").1 = failStr e ∧
      (summarize_text genAllErr ["k"] "T").2 = matrixOf ["k"] ∧
      ((matrixOf ["k"] = [] ∧ e = "") ∨
        (∃ p, (matrixOf ["k"]).getLast? = some p ∧
          genAllErr p.1 p.2 (mkPrompt "T") = Except.error e)) :=
  c5_exhaustion_returns_last_error genAllErr ["k"] "T"
    (fun p _ => ⟨"E", rfl⟩)

/-- Claim C10: with an empty credential pool `summarize_text` makes zero
generation attempts and returns the failure string whose carried reason is
the empty string (and does not raise: it is a total function); moreover
`API_KEY_POOL` as built on line 33 contains only non-empty, non-whitespace
keys. -/
theorem c10_empty_pool (gen : String → String → String → Except String String)
    (text : String) (raw : List (Option String)) :
    summarize_text gen [] text = (failStr "", []) ∧
    (apiKeyPool raw).all (fun k => !k.data.isEmpty && !(pyStrip k).data.isEmpty) = true :=
  ⟨rfl, apiKeyPool_good raw⟩

/-! ## Lemmas about the mirror-pool download loops -/

theorem dvc_fst_fs_irrel (o : String → CobaltStep) (url : String) :
    ∀ (order : List String) (fs fs2 : FS),
      (download_via_cobalt o url order fs).1 = (download_via_cobalt o url order fs2).1 := by
  intro order
  induction order with
  | nil => intro fs fs2; rfl
  | cons i rest ih =>
    intro fs fs2
    cases hoc : o i with
    | file s =>
      by_cases hs : s < 10240
      · simp only [download_via_cobalt, hoc, if_pos hs]
        exact ih _ _
      · simp only [download_via_cobalt, hoc, if_neg hs]
    | partialFile s => simp only [download_via_cobalt, hoc]; exact ih _ _
    | netError => simp only [download_via_cobalt, hoc]; exact ih _ _
    | httpError => simp only [download_via_cobalt, hoc]; exact ih _ _
    | jsonError => simp only [download_via_cobalt, hoc]; exact ih _ _
    | noUrl => simp only [download_via_cobalt, hoc]; exact ih _ _

theorem dvc_undersized_fst (o : String → CobaltStep) (url instUrl : String)
    (s : Nat) (ho : o instUrl = CobaltStep.file s) (hs : s < 10240) :
    ∀ (order : List String) (fs : FS),
      (download_via_cobalt o url order fs).1 =
        (download_via_cobalt
          (fun i => if i = instUrl then CobaltStep.netError else o i) url order fs).1 := by
  intro order
  induction order with
  | nil => intro fs; rfl
  | cons i rest ih =>
    intro fs
    by_cases hi : i = instUrl
    · subst hi
      simp only [download_via_cobalt, ho, if_pos rfl, if_pos hs]
      rw [dvc_fst_fs_irrel o url rest
        (removeFile (setFile fs (cobaltFilename url) s) (cobaltFilename url)) fs]
      exact ih fs
    · cases hoc : o i with
      | file s2 =>
        by_cases hs2 : s2 < 10240
        · simp only [download_via_cobalt, hoc, if_neg hi, if_pos hs2]
          exact ih _
        · simp only [download_via_cobalt, hoc, if_neg hi, if_neg hs2]
      | partialFile s2 =>
        simp only [download_via_cobalt, hoc, if_neg hi]
        exact ih _
      | netError => simp only [download_via_cobalt, hoc, if_neg hi]; exact ih fs
      | httpError => simp only [download_via_cobalt, hoc, if_neg hi]; exact ih fs
      | jsonError => simp only [download_via_cobalt, hoc, if_neg hi]; exact ih fs
      | noUrl => simp only [download_via_cobalt, hoc, if_neg hi]; exact ih fs

theorem dvc_undersized_is_no_response (o : String → CobaltStep) (url instUrl : String)
    (s : Nat) (ho : o instUrl = CobaltStep.file s) (hs : s < 10240) :
    ∀ (order : List String) (fs : FS), fs (cobaltFilename url) = none →
      (∀ i ∈ order, ∀ s2, o i ≠ CobaltStep.partialFile s2) →
      download_via_cobalt o url order fs =
        download_via_cobalt
          (fun i => if i = instUrl then CobaltStep.netError else o i) url order fs := by
  intro order
  induction order with
  | nil => intro fs _ _; rfl
  | cons i rest ih =>
    intro fs hfs hnp
    have hnpr : ∀ j ∈ rest, ∀ s2, o j ≠ CobaltStep.partialFile s2 :=
      fun j hj => hnp j (List.mem_cons_of_mem i hj)
    by_cases hi : i = instUrl
    · subst hi
      have hfs2 : removeFile (setFile fs (cobaltFilename url) s) (cobaltFilename url) = fs := by
        funext q
        by_cases hq : q = cobaltFilename url
        · subst hq; simp [removeFile, hfs]
        · simp [removeFile, setFile, hq]
      simp only [download_via_cobalt, ho, if_pos rfl, if_pos hs]
      rw [hfs2]
      exact ih fs hfs hnpr
    · cases hoc : o i with
      | file s2 =>
        by_cases hs2 : s2 < 10240
        · have hp : (removeFile (setFile fs (cobaltFilename url) s2) (cobaltFilename url))
              (cobaltFilename url) = none := by simp [removeFile]
          simp only [download_via_cobalt, hoc, if_neg hi, if_pos hs2]
          exact ih _ hp hnpr
        · simp only [download_via_cobalt, hoc, if_neg hi, if_neg hs2]
      | partialFile s2 =>
        exact absurd hoc (hnp i (List.mem_cons_self i rest) s2)
      | netError =>
        simp only [download_via_cobalt, hoc, if_neg hi]
        exact ih fs hfs hnpr
      | httpError =>
        simp only [download_via_cobalt, hoc, if_neg hi]
        exact ih fs hfs hnpr
      | jsonError =>
        simp only [download_via_cobalt, hoc, if_neg hi]
        exact ih fs hfs hnpr
      | noUrl =>
        simp only [download_via_cobalt, hoc, if_neg hi]
        exact ih fs hfs hnpr

theorem dvc_exhaust (o : String → CobaltStep) (url : String) :
    ∀ (order : List String) (fs : FS),
      (∀ i ∈ order, ∀ s, o i = CobaltStep.file s → s < 10240) →
      (download_via_cobalt o url order fs).1 = none := by
  intro order
  induction order with
  | nil => intro fs _; rfl
  | cons i rest ih =>
    intro fs h
    have hrest : ∀ j ∈ rest, ∀ s, o j = CobaltStep.file s → s < 10240 :=
      fun j hj => h j (List.mem_cons_of_mem i hj)
    cases hoc : o i with
    | file s =>
      have hs : s < 10240 := h i (List.mem_cons_self i rest) s hoc
      simp only [download_via_cobalt, hoc, if_pos hs]
      exact ih _ hrest
    | partialFile s => simp only [download_via_cobalt, hoc]; exact ih _ hrest
    | netError => simp only [download_via_cobalt, hoc]; exact ih fs hrest
    | httpError => simp only [download_via_cobalt, hoc]; exact ih fs hrest
    | jsonError => simp only [download_via_cobalt, hoc]; exact ih fs hrest
    | noUrl => simp only [download_via_cobalt, hoc]; exact ih fs hrest

theorem dvi_fst_fs_irrel (o : String → InvStep) (vid : String) :
    ∀ (order : List String) (fs fs2 : FS),
      (download_via_invidious o vid order fs).1
        = (download_via_invidious o vid order fs2).1 := by
  intro order
  induction order with
  | nil => intro fs fs2; rfl
  | cons i rest ih =>
    intro fs fs2
    cases hoc : o i with
    | file s =>
      by_cases hs : s < 10240
      · simp only [download_via_invidious, hoc, if_pos hs]
        exact ih _ _
      · simp only [download_via_invidious, hoc, if_neg hs]
    | partialFile s => simp only [download_via_invidious, hoc]; exact ih _ _
    | netError => simp only [download_via_invidious, hoc]; exact ih _ _
    | httpError => simp only [download_via_invidious, hoc]; exact ih _ _
    | noFormats => simp only [download_via_invidious, hoc]; exact ih _ _
    | noAudio => simp only [download_via_invidious, hoc]; exact ih _ _

theorem dvi_undersized_fst (o : String → InvStep) (vid instUrl : String)
    (s : Nat) (ho : o instUrl = InvStep.file s) (hs : s < 10240) :
    ∀ (order : List String) (fs : FS),
      (download_via_invidious o vid order fs).1 =
        (download_via_invidious
          (fun i => if i = instUrl then InvStep.netError else o i) vid order fs).1 := by
  intro order
  induction order with
  | nil => intro fs; rfl
  | cons i rest ih =>
    intro fs
    by_cases hi : i = instUrl
    · subst hi
      simp only [download_via_invidious, ho, if_pos rfl, if_pos hs]
      rw [dvi_fst_fs_irrel o vid rest
        (removeFile (setFile fs (invFilename vid) s) (invFilename vid)) fs]
      exact ih fs
    · cases hoc : o i with
      | file s2 =>
        by_cases hs2 : s2 < 10240
        · simp only [download_via_invidious, hoc, if_neg hi, if_pos hs2]
          exact ih _
        · simp only [download_via_invidious, hoc, if_neg hi, if_neg hs2]
      | partialFile s2 =>
        simp only [download_via_invidious, hoc, if_neg hi]
        exact ih _
      | netError => simp only [download_via_invidious, hoc, if_neg hi]; exact ih fs
      | httpError => simp only [download_via_invidious, hoc, if_neg hi]; exact ih fs
      | noFormats => simp only [download_via_invidious, hoc, if_neg hi]; exact ih fs
      | noAudio => simp only [download_via_invidious, hoc, if_neg hi]; exact ih fs

theorem dvi_undersized_is_no_response (o : String → InvStep) (vid instUrl : String)
    (s : Nat) (ho : o instUrl = InvStep.file s) (hs : s < 10240) :
    ∀ (order : List String) (fs : FS), fs (invFilename vid) = none →
      (∀ i ∈ order, ∀ s2, o i ≠ InvStep.partialFile s2) →
      download_via_invidious o vid order fs =
        download_via_invidious
          (fun i => if i = instUrl then InvStep.netError else o i) vid order fs := by
  intro order
  induction order with
  | nil => intro fs _ _; rfl
  | cons i rest ih =>
    intro fs hfs hnp
    have hnpr : ∀ j ∈ rest, ∀ s2, o j ≠ InvStep.partialFile s2 :=
      fun j hj => hnp j (List.mem_cons_of_mem i hj)
    by_cases hi : i = instUrl
    · subst hi
      have hfs2 : removeFile (setFile fs (invFilename vid) s) (invFilename vid) = fs := by
        funext q
        by_cases hq : q = invFilename vid
        · subst hq; simp [removeFile, hfs]
        · simp [removeFile, setFile, hq]
      simp only [download_via_invidious, ho, if_pos rfl, if_pos hs]
      rw [hfs2]
      exact ih fs hfs hnpr
    · cases hoc : o i with
      | file s2 =>
        by_cases hs2 : s2 < 10240
        · have hp : (removeFile (setFile fs (invFilename vid) s2) (invFilename vid))
              (invFilename vid) = none := by simp [removeFile]
          simp only [download_via_invidious, hoc, if_neg hi, if_pos hs2]
          exact ih _ hp hnpr
        · simp only [download_via_invidious, hoc, if_neg hi, if_neg hs2]
      | partialFile s2 =>
        exact absurd hoc (hnp i (List.mem_cons_self i rest) s2)
      | netError =>
        simp only [download_via_invidious, hoc, if_neg hi]
        exact ih fs hfs hnpr
      | httpError =>
        simp only [download_via_invidious, hoc, if_neg hi]
        exact ih fs hfs hnpr
      | noFormats =>
        simp only [download_via_invidious, hoc, if_neg hi]
        exact ih fs hfs hnpr
      | noAudio =>
        simp only [download_via_invidious, hoc, if_neg hi]
        exact ih fs hfs hnpr

theorem dvi_exhaust (o : String → InvStep) (vid : String) :
    ∀ (order : List String) (fs : FS),
      (∀ i ∈ order, ∀ s, o i = InvStep.file s → s < 10240) →
      (download_via_invidious o vid order fs).1 = none := by
  intro order
  induction order with
  | nil => intro fs _; rfl
  | cons i rest ih =>
    intro fs h
    have hrest : ∀ j ∈ rest, ∀ s, o j = InvStep.file s → s < 10240 :=
      fun j hj => h j (List.mem_cons_of_mem i hj)
    cases hoc : o i with
    | file s =>
      have hs : s < 10240 := h i (List.mem_cons_self i rest) s hoc
      simp only [download_via_invidious, hoc, if_pos hs]
      exact ih _ hrest
    | partialFile s => simp only [download_via_invidious, hoc]; exact ih _ hrest
    | netError => simp only [download_via_invidious, hoc]; exact ih fs hrest
    | httpError => simp only [download_via_invidious, hoc]; exact ih fs hrest
    | noFormats => simp only [download_via_invidious, hoc]; exact ih fs hrest
    | noAudio => simp only [download_via_invidious, hoc]; exact ih fs hrest

/-- Claim C7: in both mirror-pool download loops, a completely downloaded
file under 10240 bytes (10 KB) is deleted and treated identically to no
response. The polling decision — the returned value — is identical to the
no-response poll unconditionally (parts 1 and 4: the loop's control flow
and result never depend on the filesystem). The whole outcome including
the filesystem is identical whenever every download in the pool runs to
completion (parts 2 and 5; a download that fails mid-stream leaves a
partial artifact at the same path, which a later undersized complete
download would overwrite and clear — the only observable divergence, see
`CobaltStep.partialFile`). Exhausting a pool in which no instance serves a
complete file of at least 10240 bytes returns `none` rather than raising
(parts 3 and 6; the functions are total, every request exception is caught
by the per-instance `except: continue`). -/
theorem c7_undersized_and_exhaustion :
    (∀ (o : String → CobaltStep) (url instUrl : String) (s : Nat)
        (order : List String) (fs : FS),
      o instUrl = CobaltStep.file s → s < 10240 →
      (download_via_cobalt o url order fs).1 =
        (download_via_cobalt
          (fun i => if i = instUrl then CobaltStep.netError else o i) url order fs).1) ∧
    (∀ (o : String → CobaltStep) (url instUrl : String) (s : Nat)
        (order : List String) (fs : FS),
      o instUrl = CobaltStep.file s → s < 10240 → fs (cobaltFilename url) = none →
      (∀ i ∈ order, ∀ s2, o i ≠ CobaltStep.partialFile s2) →
      download_via_cobalt o url order fs =
        download_via_cobalt
          (fun i => if i = instUrl then CobaltStep.netError else o i) url order fs) ∧
    (∀ (o : String → CobaltStep) (url : String) (order : List String) (fs : FS),
      (∀ i ∈ order, ∀ s, o i = CobaltStep.file s → s < 10240) →
      (download_via_cobalt o url order fs).1 = none) ∧
    (∀ (o : String → InvStep) (vid instUrl : String) (s : Nat)
        (order : List String) (fs : FS),
      o instUrl = InvStep.file s → s < 10240 →
      (download_via_invidious o vid order fs).1 =
        (download_via_invidious
          (fun i => if i = instUrl then InvStep.netError else o i) vid order fs).1) ∧
    (∀ (o : String → InvStep) (vid instUrl : String) (s : Nat)
        (order : List String) (fs : FS),
      o instUrl = InvStep.file s → s < 10240 → fs (invFilename vid) = none →
      (∀ i ∈ order, ∀ s2, o i ≠ InvStep.partialFile s2) →
      download_via_invidious o vid order fs =
        download_via_invidious
          (fun i => if i = instUrl then InvStep.netError else o i) vid order fs) ∧
    (∀ (o : String → InvStep) (vid : String) (order : List String) (fs : FS),
      (∀ i ∈ order, ∀ s, o i = InvStep.file s → s < 10240) →
      (download_via_invidious o vid order fs).1 = none) :=
  ⟨fun o url instUrl s order fs ho hs =>
      dvc_undersized_fst o url instUrl s ho hs order fs,
    fun o url instUrl s order fs ho hs hfs hnp =>
      dvc_undersized_is_no_response o url instUrl s ho hs order fs hfs hnp,
    fun o url order fs h => dvc_exhaust o url order fs h,
    fun o vid instUrl s order fs ho hs =>
      dvi_undersized_fst o vid instUrl s ho hs order fs,
    fun o vid instUrl s order fs ho hs hfs hnp =>
      dvi_undersized_is_no_response o vid instUrl s ho hs order fs hfs hnp,
    fun o vid order fs h => dvi_exhaust o vid order fs h⟩

/-- Witness for C7: a two-instance pool where `"a"` serves a complete
100-byte file and `"b"` times out — the poll's result and (all downloads
being complete) its whole outcome equal those of the poll with `"a"`
silenced, and the exhausted pools return `none`. -/
theorem c7_undersized_and_exhaustion_witness :
    (download_via_cobalt oC7c "u" ["a", "b"] emptyFS).1 =
      (download_via_cobalt
        (fun i => if i = "a" then CobaltStep.netError else oC7c i) "u" ["a", "b"] emptyFS).1 ∧
    (download_via_cobalt oC7c "u" ["a", "b"] emptyFS =
      download_via_cobalt
        (fun i => if i = "a" then CobaltStep.netError else oC7c i) "u" ["a", "b"] emptyFS) ∧
    (download_via_cobalt oC7c "u" ["a", "b"] emptyFS).1 = none ∧
    (download_via_invidious oC7i "vid" ["a", "b"] emptyFS).1 =
      (download_via_invidious
        (fun i => if i = "a" then InvStep.netError else oC7i i) "vid" ["a", "b"] emptyFS).1 ∧
    (download_via_invidious oC7i "vid" ["a", "b"] emptyFS =
      download_via_invidious
        (fun i => if i = "a" then InvStep.netError else oC7i i) "vid" ["a", "b"] emptyFS) ∧
    (download_via_invidious oC7i "vid" ["a", "b"] emptyFS).1 = none := by
  have hc : ∀ i ∈ ["a", "b"], ∀ s, oC7c i = CobaltStep.file s → s < 10240 := by
    intro i hi s hsf
    fin_cases hi
    · simp [oC7c] at hsf; omega
    · simp [oC7c] at hsf
  have hv : ∀ i ∈ ["a", "b"], ∀ s, oC7i i = InvStep.file s → s < 10240 := by
    intro i hi s hsf
    fin_cases hi
    · simp [oC7i] at hsf; omega
    · simp [oC7i] at hsf
  have hnc : ∀ i ∈ ["a", "b"], ∀ s2, oC7c i ≠ CobaltStep.partialFile s2 := by
    intro i hi s2 hsf
    fin_cases hi
    · simp [oC7c] at hsf
    · simp [oC7c] at hsf
  have hnv : ∀ i ∈ ["a", "b"], ∀ s2, oC7i i ≠ InvStep.partialFile s2 := by
    intro i hi s2 hsf
    fin_cases hi
    · simp [oC7i] at hsf
    · simp [oC7i] at hsf
  exact ⟨c7_undersized_and_exhaustion.1 oC7c "u" "a" 100 ["a", "b"] emptyFS rfl (by decide),
    c7_undersized_and_exhaustion.2.1 oC7c "u" "a" 100 ["a", "b"] emptyFS rfl
      (by decide) rfl hnc,
    c7_undersized_and_exhaustion.2.2.1 oC7c "u" ["a", "b"] emptyFS hc,
    c7_undersized_and_exhaustion.2.2.2.1 oC7i "vid" "a" 100 ["a", "b"] emptyFS rfl
      (by decide),
    c7_undersized_and_exhaustion.2.2.2.2.1 oC7i "vid" "a" 100 ["a", "b"] emptyFS rfl
      (by decide) rfl hnv,
    c7_undersized_and_exhaustion.2.2.2.2.2 oC7i "vid" ["a", "b"] emptyFS hv⟩

/-! ## String-append injectivity (for artifact-path uniqueness) -/

theorem strData_inj {s t : String} (h : s.data = t.data) : s = t := by
  cases s
  cases t
  exact congrArg String.mk h

theorem strAppend_mid_inj (a b s t : String) (h : a ++ s ++ b = a ++ t ++ b) : s = t := by
  have hd : a.data ++ s.data ++ b.data = a.data ++ t.data ++ b.data := by
    have h2 := congrArg String.data h
    simpa [String.data_append] using h2
  exact strData_inj (List.append_cancel_left (List.append_cancel_right hd))

/-- Counterexample to claim C9: two youtu.be URLs with distinct extracted
video identifiers (`"AAAA"` and `"BBBB"`) are both written to the single
shared Cobalt artifact path `/tmp/temp_cob.mp3`, because line 94 re-derives
the id from the URL with a `"temp"` fallback for URLs without `"v="`. -/
theorem c9_counterexample :
    extractVideoId "https://youtu.be/AAAA" = some "AAAA" ∧
    extractVideoId "https://youtu.be/BBBB" = some "BBBB" ∧
    ("AAAA" : String) ≠ "BBBB" ∧
    cobaltFilename "https://youtu.be/AAAA" = cobaltFilename "https://youtu.be/BBBB" ∧
    cobaltFilename "https://youtu.be/AAAA" = "/tmp/temp_cob.mp3" :=
  ⟨by decide, by decide, by decide, by decide, by decide⟩

/-- Claim C9 as amended: Invidious artifact paths are injective in the
video identifier; Cobalt artifact paths are injective in the extracted id
for URLs containing `"v="`; but every URL without `"v="` (e.g. any youtu.be
short link) shares the single fallback path `/tmp/temp_cob.mp3`, so
distinct videos requested by such URLs collide on the Cobalt path. -/
theorem c9_amended_artifact_paths :
    (∀ id1 id2 : String, id1 ≠ id2 → invFilename id1 ≠ invFilename id2) ∧
    (∀ u1 u2 : String, hasSub u1 "v=" = true → hasSub u2 "v=" = true →
      queryFormId u1 ≠ queryFormId u2 → cobaltFilename u1 ≠ cobaltFilename u2) ∧
    (∀ u : String, hasSub u "v=" = false → cobaltFilename u = "/tmp/temp_cob.mp3") := by
  refine ⟨?_, ?_, ?_⟩
  · intro id1 id2 hne heq
    exact hne (strAppend_mid_inj "/tmp/" "_inv.mp3" id1 id2 heq)
  · intro u1 u2 h1 h2 hne heq
    rw [cobaltFilename, cobaltFilename, if_pos h1, if_pos h2] at heq
    exact hne (strAppend_mid_inj "/tmp/" "_cob.mp3" (queryFormId u1) (queryFormId u2) heq)
  · intro u hu
    rw [cobaltFilename, if_neg (by simp [hu])]
    rfl

/-- Witness for the amended C9 on concrete ids and URLs. -/
theorem c9_amended_artifact_paths_witness :
    invFilename "AAAA" ≠ invFilename "BBBB" ∧
    cobaltFilename "x?v=a" ≠ cobaltFilename "x?v=b" ∧
    cobaltFilename "https://youtu.be/AAAA" = "/tmp/temp_cob.mp3" :=
  ⟨c9_amended_artifact_paths.1 "AAAA" "BBBB" (by decide),
    c9_amended_artifact_paths.2.1 "x?v=a" "x?v=b" (by decide) (by decide) (by decide),
    c9_amended_artifact_paths.2.2 "https://youtu.be/AAAA" (by decide)⟩

/-! ## Lemmas about the orchestrator cascade -/

theorem bnot_true {b : Bool} (h : ¬ b = true) : b = false := by
  cases b
  · rfl
  · exact absurd rfl h

theorem stateA_tried (env : Env) (fs0 : FS) : (stateA env fs0).tried = [Strategy.sA] := by
  unfold stateA
  cases h : env.listTranscripts with
  | none => rfl
  | some l => cases l <;> rfl

theorem stateA_fs (env : Env) (fs0 : FS) : (stateA env fs0).fs = fs0 := by
  unfold stateA
  cases h : env.listTranscripts with
  | none => rfl
  | some l => cases l <;> rfl

theorem stateA_tag (env : Env) (fs0 : FS) (h : isFalsy (stateA env fs0).ft = false) :
    (stateA env fs0).tag = "CC字幕(官方)" := by
  unfold stateA at h ⊢
  revert h
  split
  · intro _
    rfl
  · intro h
    simp [isFalsy] at h

theorem tryCobaltS_skip (env : Env) (url : String) (s : StState)
    (h : isFalsy s.ft = false) : tryCobaltS env url s = s := by
  unfold tryCobaltS
  rw [h]
  simp

theorem tryInvidiousS_skip (env : Env) (vid : String) (s : StState)
    (h : isFalsy s.ft = false) : tryInvidiousS env vid s = s := by
  unfold tryInvidiousS
  rw [h]
  simp

theorem tryYtdlpS_skip (env : Env) (s : StState)
    (h : isFalsy s.ft = false) : tryYtdlpS env s = s := by
  unfold tryYtdlpS
  rw [h]
  simp

theorem tryCobaltS_tried (env : Env) (url : String) (s : StState)
    (h : isFalsy s.ft = true) :
    (tryCobaltS env url s).tried = s.tried ++ [Strategy.sB] := by
  unfold tryCobaltS
  rw [if_pos h]
  split
  · split <;> rfl
  · rfl

theorem tryInvidiousS_tried (env : Env) (vid : String) (s : StState)
    (h : isFalsy s.ft = true) :
    (tryInvidiousS env vid s).tried = s.tried ++ [Strategy.sC] := by
  unfold tryInvidiousS
  rw [if_pos h]
  split
  · split <;> rfl
  · rfl

theorem tryYtdlpS_tried (env : Env) (s : StState)
    (h : isFalsy s.ft = true) :
    (tryYtdlpS env s).tried = s.tried ++ [Strategy.sD] := by
  unfold tryYtdlpS
  rw [if_pos h]
  split
  · split
    · split <;> rfl
    · rfl
  · rfl

theorem tryCobaltS_tag (env : Env) (url : String) (s : StState)
    (h : isFalsy s.ft = true)
    (h2 : isFalsy (tryCobaltS env url s).ft = false) :
    (tryCobaltS env url s).tag = "語音轉錄(Cobalt)" := by
  unfold tryCobaltS at h2 ⊢
  rw [if_pos h] at h2 ⊢
  revert h2
  split
  · split
    · intro _
      rfl
    · intro h2
      simp [h] at h2
  · intro h2
    simp [h] at h2

theorem tryInvidiousS_tag (env : Env) (vid : String) (s : StState)
    (h : isFalsy s.ft = true)
    (h2 : isFalsy (tryInvidiousS env vid s).ft = false) :
    (tryInvidiousS env vid s).tag = "語音轉錄(Invidious)" := by
  unfold tryInvidiousS at h2 ⊢
  rw [if_pos h] at h2 ⊢
  revert h2
  split
  · split
    · intro _
      rfl
    · intro h2
      simp [h] at h2
  · intro h2
    simp [h] at h2

theorem dvc_fs_other (o : String → CobaltStep) (url : String) :
    ∀ (order : List String) (fs : FS) (q : String), q ≠ cobaltFilename url →
      (download_via_cobalt o url order fs).2 q = fs q := by
  intro order
  induction order with
  | nil => intro fs q _; rfl
  | cons i rest ih =>
    intro fs q hq
    cases hoc : o i with
    | file s =>
      by_cases hs : s < 10240
      · simp only [download_via_cobalt, hoc, if_pos hs]
        rw [ih _ q hq]
        simp [removeFile, setFile, hq]
      · simp only [download_via_cobalt, hoc, if_neg hs]
        simp [setFile, hq]
    | partialFile s =>
      simp only [download_via_cobalt, hoc]
      rw [ih _ q hq]
      simp [setFile, hq]
    | netError => simp only [download_via_cobalt, hoc]; exact ih fs q hq
    | httpError => simp only [download_via_cobalt, hoc]; exact ih fs q hq
    | jsonError => simp only [download_via_cobalt, hoc]; exact ih fs q hq
    | noUrl => simp only [download_via_cobalt, hoc]; exact ih fs q hq

theorem dvc_none_fs (o : String → CobaltStep) (url : String) :
    ∀ (order : List String) (fs : FS), fs (cobaltFilename url) = none →
      (∀ i ∈ order, ∀ s, o i ≠ CobaltStep.partialFile s) →
      (download_via_cobalt o url order fs).1 = none →
      (download_via_cobalt o url order fs).2 (cobaltFilename url) = none := by
  intro order
  induction order with
  | nil => intro fs hfs _ _; exact hfs
  | cons i rest ih =>
    intro fs hfs hnp h1
    have hnpr : ∀ j ∈ rest, ∀ s, o j ≠ CobaltStep.partialFile s :=
      fun j hj => hnp j (List.mem_cons_of_mem i hj)
    cases hoc : o i with
    | file s =>
      by_cases hs : s < 10240
      · simp only [download_via_cobalt, hoc, if_pos hs] at h1 ⊢
        exact ih _ (by simp [removeFile]) hnpr h1
      · simp only [download_via_cobalt, hoc, if_neg hs] at h1
        exact Option.noConfusion h1
    | partialFile s =>
      exact absurd hoc (hnp i (List.mem_cons_self i rest) s)
    | netError => simp only [download_via_cobalt, hoc] at h1 ⊢; exact ih fs hfs hnpr h1
    | httpError => simp only [download_via_cobalt, hoc] at h1 ⊢; exact ih fs hfs hnpr h1
    | jsonError => simp only [download_via_cobalt, hoc] at h1 ⊢; exact ih fs hfs hnpr h1
    | noUrl => simp only [download_via_cobalt, hoc] at h1 ⊢; exact ih fs hfs hnpr h1

theorem dvc_some (o : String → CobaltStep) (url : String) :
    ∀ (order : List String) (fs : FS) (p : String),
      (download_via_cobalt o url order fs).1 = some p →
      p = cobaltFilename url ∧ ∃ n, ¬ n < 10240 ∧
        (download_via_cobalt o url order fs).2 = setFile fs (cobaltFilename url) n := by
  intro order
  induction order with
  | nil => intro fs p h; exact Option.noConfusion h
  | cons i rest ih =>
    intro fs p h1
    cases hoc : o i with
    | file s =>
      by_cases hs : s < 10240
      · simp only [download_via_cobalt, hoc, if_pos hs] at h1 ⊢
        obtain ⟨hp, n, hn, hfs⟩ := ih _ p h1
        refine ⟨hp, n, hn, ?_⟩
        rw [hfs]
        funext q
        by_cases hq : q = cobaltFilename url
        · subst hq; simp [setFile]
        · simp [setFile, removeFile, hq]
      · simp only [download_via_cobalt, hoc, if_neg hs] at h1 ⊢
        obtain rfl : cobaltFilename url = p := by simpa using h1
        exact ⟨rfl, s, hs, rfl⟩
    | partialFile s =>
      simp only [download_via_cobalt, hoc] at h1 ⊢
      obtain ⟨hp, n, hn, hfs⟩ := ih _ p h1
      refine ⟨hp, n, hn, ?_⟩
      rw [hfs]
      funext q
      by_cases hq : q = cobaltFilename url
      · subst hq; simp [setFile]
      · simp [setFile, hq]
    | netError => simp only [download_via_cobalt, hoc] at h1 ⊢; exact ih fs p h1
    | httpError => simp only [download_via_cobalt, hoc] at h1 ⊢; exact ih fs p h1
    | jsonError => simp only [download_via_cobalt, hoc] at h1 ⊢; exact ih fs p h1
    | noUrl => simp only [download_via_cobalt, hoc] at h1 ⊢; exact ih fs p h1

theorem dvi_fs_other (o : String → InvStep) (vid : String) :
    ∀ (order : List String) (fs : FS) (q : String), q ≠ invFilename vid →
      (download_via_invidious o vid order fs).2 q = fs q := by
  intro order
  induction order with
  | nil => intro fs q _; rfl
  | cons i rest ih =>
    intro fs q hq
    cases hoc : o i with
    | file s =>
      by_cases hs : s < 10240
      · simp only [download_via_invidious, hoc, if_pos hs]
        rw [ih _ q hq]
        simp [removeFile, setFile, hq]
      · simp only [download_via_invidious, hoc, if_neg hs]
        simp [setFile, hq]
    | partialFile s =>
      simp only [download_via_invidious, hoc]
      rw [ih _ q hq]
      simp [setFile, hq]
    | netError => simp only [download_via_invidious, hoc]; exact ih fs q hq
    | httpError => simp only [download_via_invidious, hoc]; exact ih fs q hq
    | noFormats => simp only [download_via_invidious, hoc]; exact ih fs q hq
    | noAudio => simp only [download_via_invidious, hoc]; exact ih fs q hq

theorem dvi_none_fs (o : String → InvStep) (vid : String) :
    ∀ (order : List String) (fs : FS), fs (invFilename vid) = none →
      (∀ i ∈ order, ∀ s, o i ≠ InvStep.partialFile s) →
      (download_via_invidious o vid order fs).1 = none →
      (download_via_invidious o vid order fs).2 (invFilename vid) = none := by
  intro order
  induction order with
  | nil => intro fs hfs _ _; exact hfs
  | cons i rest ih =>
    intro fs hfs hnp h1
    have hnpr : ∀ j ∈ rest, ∀ s, o j ≠ InvStep.partialFile s :=
      fun j hj => hnp j (List.mem_cons_of_mem i hj)
    cases hoc : o i with
    | file s =>
      by_cases hs : s < 10240
      · simp only [download_via_invidious, hoc, if_pos hs] at h1 ⊢
        exact ih _ (by simp [removeFile]) hnpr h1
      · simp only [download_via_invidious, hoc, if_neg hs] at h1
        exact Option.noConfusion h1
    | partialFile s =>
      exact absurd hoc (hnp i (List.mem_cons_self i rest) s)
    | netError => simp only [download_via_invidious, hoc] at h1 ⊢; exact ih fs hfs hnpr h1
    | httpError => simp only [download_via_invidious, hoc] at h1 ⊢; exact ih fs hfs hnpr h1
    | noFormats => simp only [download_via_invidious, hoc] at h1 ⊢; exact ih fs hfs hnpr h1
    | noAudio => simp only [download_via_invidious, hoc] at h1 ⊢; exact ih fs hfs hnpr h1

theorem dvi_some (o : String → InvStep) (vid : String) :
    ∀ (order : List String) (fs : FS) (p : String),
      (download_via_invidious o vid order fs).1 = some p →
      p = invFilename vid ∧ ∃ n, ¬ n < 10240 ∧
        (download_via_invidious o vid order fs).2 = setFile fs (invFilename vid) n := by
  intro order
  induction order with
  | nil => intro fs p h; exact Option.noConfusion h
  | cons i rest ih =>
    intro fs p h1
    cases hoc : o i with
    | file s =>
      by_cases hs : s < 10240
      · simp only [download_via_invidious, hoc, if_pos hs] at h1 ⊢
        obtain ⟨hp, n, hn, hfs⟩ := ih _ p h1
        refine ⟨hp, n, hn, ?_⟩
        rw [hfs]
        funext q
        by_cases hq : q = invFilename vid
        · subst hq; simp [setFile]
        · simp [setFile, removeFile, hq]
      · simp only [download_via_invidious, hoc, if_neg hs] at h1 ⊢
        obtain rfl : invFilename vid = p := by simpa using h1
        exact ⟨rfl, s, hs, rfl⟩
    | partialFile s =>
      simp only [download_via_invidious, hoc] at h1 ⊢
      obtain ⟨hp, n, hn, hfs⟩ := ih _ p h1
      refine ⟨hp, n, hn, ?_⟩
      rw [hfs]
      funext q
      by_cases hq : q = invFilename vid
      · subst hq; simp [setFile]
      · simp [setFile, hq]
    | netError => simp only [download_via_invidious, hoc] at h1 ⊢; exact ih fs p h1
    | httpError => simp only [download_via_invidious, hoc] at h1 ⊢; exact ih fs p h1
    | noFormats => simp only [download_via_invidious, hoc] at h1 ⊢; exact ih fs p h1
    | noAudio => simp only [download_via_invidious, hoc] at h1 ⊢; exact ih fs p h1

theorem tryYtdlpS_tag (env : Env) (s : StState)
    (h : isFalsy s.ft = true)
    (h2 : isFalsy (tryYtdlpS env s).ft = false) :
    (tryYtdlpS env s).tag = "語音轉錄(yt-dlp)" := by
  unfold tryYtdlpS at h2 ⊢
  rw [if_pos h] at h2 ⊢
  revert h2
  split
  · split
    · split
      · intro _
        rfl
      · intro h2
        simp [h] at h2
    · intro h2
      simp [h] at h2
  · intro h2
    simp [h] at h2

theorem tryCobaltS_preserveNone (env : Env) (url : String) (s : StState) (q : String)
    (hg : ∀ pth n, env.groq pth n ≠ none)
    (hnp : ∀ i ∈ env.cobaltOrder, ∀ s2, env.cobalt i ≠ CobaltStep.partialFile s2)
    (h : s.fs q = none) :
    (tryCobaltS env url s).fs q = none := by
  by_cases hf : isFalsy s.ft = true
  · unfold tryCobaltS
    rw [if_pos hf]
    split
    next p fs1 heq =>
      have h1 : (download_via_cobalt env.cobalt url env.cobaltOrder s.fs).1 = some p :=
        congrArg Prod.fst heq
      have h2 : (download_via_cobalt env.cobalt url env.cobaltOrder s.fs).2 = fs1 :=
        congrArg Prod.snd heq
      obtain ⟨hp, n, _, hfs⟩ := dvc_some env.cobalt url env.cobaltOrder s.fs p h1
      have hfs1 : fs1 = setFile s.fs (cobaltFilename url) n := by rw [← h2, hfs]
      split
      next t hgt =>
        by_cases hq : q = p
        · subst hq; simp [removeFile]
        · have hq2 : q ≠ cobaltFilename url := by rw [← hp]; exact hq
          simp [removeFile, hq, hfs1, setFile, hq2, h]
      next hgn => exact absurd hgn (hg _ _)
    next fs1 heq =>
      have h1 : (download_via_cobalt env.cobalt url env.cobaltOrder s.fs).1 = none :=
        congrArg Prod.fst heq
      have h2 : (download_via_cobalt env.cobalt url env.cobaltOrder s.fs).2 = fs1 :=
        congrArg Prod.snd heq
      by_cases hq : q = cobaltFilename url
      · subst hq
        show fs1 (cobaltFilename url) = none
        rw [← h2]
        exact dvc_none_fs env.cobalt url env.cobaltOrder s.fs h hnp h1
      · show fs1 q = none
        rw [← h2]
        rw [dvc_fs_other env.cobalt url env.cobaltOrder s.fs q hq]
        exact h
  · rw [tryCobaltS_skip env url s (bnot_true hf)]
    exact h

theorem tryInvidiousS_preserveNone (env : Env) (vid : String) (s : StState) (q : String)
    (hg : ∀ pth n, env.groq pth n ≠ none)
    (hnp : ∀ i ∈ env.invOrder, ∀ s2, env.inv i ≠ InvStep.partialFile s2)
    (h : s.fs q = none) :
    (tryInvidiousS env vid s).fs q = none := by
  by_cases hf : isFalsy s.ft = true
  · unfold tryInvidiousS
    rw [if_pos hf]
    split
    next p fs1 heq =>
      have h1 : (download_via_invidious env.inv vid env.invOrder s.fs).1 = some p :=
        congrArg Prod.fst heq
      have h2 : (download_via_invidious env.inv vid env.invOrder s.fs).2 = fs1 :=
        congrArg Prod.snd heq
      obtain ⟨hp, n, _, hfs⟩ := dvi_some env.inv vid env.invOrder s.fs p h1
      have hfs1 : fs1 = setFile s.fs (invFilename vid) n := by rw [← h2, hfs]
      split
      next t hgt =>
        by_cases hq : q = p
        · subst hq; simp [removeFile]
        · have hq2 : q ≠ invFilename vid := by rw [← hp]; exact hq
          simp [removeFile, hq, hfs1, setFile, hq2, h]
      next hgn => exact absurd hgn (hg _ _)
    next fs1 heq =>
      have h1 : (download_via_invidious env.inv vid env.invOrder s.fs).1 = none :=
        congrArg Prod.fst heq
      have h2 : (download_via_invidious env.inv vid env.invOrder s.fs).2 = fs1 :=
        congrArg Prod.snd heq
      by_cases hq : q = invFilename vid
      · subst hq
        show fs1 (invFilename vid) = none
        rw [← h2]
        exact dvi_none_fs env.inv vid env.invOrder s.fs h hnp h1
      · show fs1 q = none
        rw [← h2]
        rw [dvi_fs_other env.inv vid env.invOrder s.fs q hq]
        exact h
  · rw [tryInvidiousS_skip env vid s (bnot_true hf)]
    exact h

theorem tryYtdlpS_preserveNone (env : Env) (s : StState) (q : String)
    (hg : ∀ pth n, env.groq pth n ≠ none) (h : s.fs q = none) :
    (tryYtdlpS env s).fs q = none := by
  by_cases hf : isFalsy s.ft = true
  · unfold tryYtdlpS
    rw [if_pos hf]
    split
    next nm sz hyd =>
      split
      · split
        next t hgt =>
          by_cases hq : q = nm
          · subst hq; simp [removeFile]
          · simp [removeFile, setFile, hq, h]
        next hgn => exact absurd hgn (hg _ _)
      · by_cases hq : q = nm
        · subst hq; simp [removeFile]
        · simp [removeFile, setFile, hq, h]
    next => exact h
  · rw [tryYtdlpS_skip env s (bnot_true hf)]
    exact h

/-- Counterexample to claim C1, exhibiting both leak paths. First run
(`envC1x`): Cobalt obtains a complete 20000-byte artifact at
`/tmp/abc_cob.mp3` and the transcription call raises — line 197's bare
`except` is reached before the removal on line 196, and the run returns the
failure outcome with the artifact still on disk. Second run (`envC1p`): the
Cobalt streamed download itself fails after writing 5000 bytes — line 106's
bare `except: continue` skips the size check and removal, no transcription
call ever raises, and the partial artifact survives the run. -/
theorem c1_counterexample :
    (get_video_content envC1x "https://www.youtube.com/watch?v=abc" emptyFS).tag = "失敗" ∧
    (get_video_content envC1x "https://www.youtube.com/watch?v=abc" emptyFS).fs
        "/tmp/abc_cob.mp3" = some 20000 ∧
    (get_video_content envC1p "https://www.youtube.com/watch?v=abc" emptyFS).tag = "失敗" ∧
    (get_video_content envC1p "https://www.youtube.com/watch?v=abc" emptyFS).fs
        "/tmp/abc_cob.mp3" = some 5000 :=
  ⟨by decide, by decide, by decide, by decide⟩

/-- Claim C1 as amended: on every run in which no mirror download fails
mid-stream (no Cobalt or Invidious instance leaves a partial write) and no
invoked transcription call raises, every audio artifact created during the
run is deleted before the run returns — at run end no path that was empty
before the run holds a file. (Both excluded cases are real leaks of the
source: a transcription raise skips the removal on lines 196/210/249, and a
mid-stream download failure skips the size check and removal via lines
106/145 — see the counterexample.) -/
theorem c1_amended_cleanup (env : Env) (url : String) (fs0 : FS) (q : String)
    (hg : ∀ p n, env.groq p n ≠ none)
    (hnc : ∀ i ∈ env.cobaltOrder, ∀ s, env.cobalt i ≠ CobaltStep.partialFile s)
    (hni : ∀ i ∈ env.invOrder, ∀ s, env.inv i ≠ InvStep.partialFile s)
    (h0 : fs0 q = none) :
    (get_video_content env url fs0).fs q = none := by
  cases hv : extractVideoId url with
  | none =>
    simp only [get_video_content, hv]
    exact h0
  | some vid =>
    have h1 : (stateA env fs0).fs q = none := by rw [stateA_fs]; exact h0
    have h2 := tryCobaltS_preserveNone env url (stateA env fs0) q hg hnc h1
    have h3 := tryInvidiousS_preserveNone env vid
      (tryCobaltS env url (stateA env fs0)) q hg hni h2
    have h4 := tryYtdlpS_preserveNone env
      (tryInvidiousS env vid (tryCobaltS env url (stateA env fs0))) q hg h3
    simp only [get_video_content, hv]
    split
    · exact h4
    · exact h4

/-- Witness for the amended C1: the leak run of the counterexample but with
complete downloads and a transcription oracle that always returns; the
artifact path is clean at the end. -/
theorem c1_amended_cleanup_witness :
    emptyFS "/tmp/abc_cob.mp3" = none ∧
    (get_video_content envC1w "https://www.youtube.com/watch?v=abc" emptyFS).fs
        "/tmp/abc_cob.mp3" = none :=
  ⟨rfl, c1_amended_cleanup envC1w "https://www.youtube.com/watch?v=abc" emptyFS
    "/tmp/abc_cob.mp3" (fun _ _ h => Option.noConfusion h)
    (fun _ _ _ h => CobaltStep.noConfusion h)
    (fun _ _ _ h => InvStep.noConfusion h) rfl⟩

/-- Claim C6: the orchestrator produces exactly one tagged outcome out of
two failure tags and four success tags, never both a success and a failure;
it enters the strategies in the fixed source order A (transcript), B
(Cobalt), C (Invidious), D (yt-dlp), each at most once and never after a
success, as recorded by the strategy trace that the final tag fully
determines (`expectedTried`). -/
theorem c6_forward_cascade (env : Env) (url : String) (fs0 : FS) :
    ((get_video_content env url fs0).tag = "錯誤" ∨
      (get_video_content env url fs0).tag = "失敗" ∨
      (get_video_content env url fs0).tag = "CC字幕(官方)" ∨
      (get_video_content env url fs0).tag = "語音轉錄(Cobalt)" ∨
      (get_video_content env url fs0).tag = "語音轉錄(Invidious)" ∨
      (get_video_content env url fs0).tag = "語音轉錄(yt-dlp)") ∧
    (get_video_content env url fs0).tried
      = expectedTried (get_video_content env url fs0).tag ∧
    (isFailTag (get_video_content env url fs0).tag = true ↔
      isSuccessTag (get_video_content env url fs0).tag = false) := by
  cases hv : extractVideoId url with
  | none =>
    refine ⟨Or.inl ?_, ?_, ?_⟩
    · simp only [get_video_content, hv]
    · simp only [get_video_content, hv]
      show ([] : List Strategy) = expectedTried "錯誤"
      decide
    · simp only [get_video_content, hv]
      show isFailTag "錯誤" = true ↔ isSuccessTag "錯誤" = false
      decide
  | some vid =>
    simp only [get_video_content, hv]
    by_cases h1 : isFalsy (stateA env fs0).ft = true
    · by_cases h2 : isFalsy (tryCobaltS env url (stateA env fs0)).ft = true
      · by_cases h3 :
            isFalsy (tryInvidiousS env vid (tryCobaltS env url (stateA env fs0))).ft = true
        · have htr : (runStrategies env url vid fs0).tried
              = [Strategy.sA, Strategy.sB, Strategy.sC, Strategy.sD] := by
            unfold runStrategies
            rw [tryYtdlpS_tried _ _ h3, tryInvidiousS_tried _ _ _ h2,
              tryCobaltS_tried _ _ _ h1, stateA_tried]
            rfl
          by_cases h4 : isFalsy (runStrategies env url vid fs0).ft = true
          · rw [if_pos h4]
            refine ⟨Or.inr (Or.inl rfl), ?_, ?_⟩
            · show (runStrategies env url vid fs0).tried = expectedTried "失敗"
              rw [htr]
              decide
            · show isFailTag "失敗" = true ↔ isSuccessTag "失敗" = false
              decide
          · rw [if_neg h4]
            have hf4 : isFalsy (runStrategies env url vid fs0).ft = false := bnot_true h4
            have htag : (runStrategies env url vid fs0).tag = "語音轉錄(yt-dlp)" :=
              tryYtdlpS_tag env _ h3 hf4
            refine ⟨Or.inr (Or.inr (Or.inr (Or.inr (Or.inr htag)))), ?_, ?_⟩
            · show (runStrategies env url vid fs0).tried
                = expectedTried (runStrategies env url vid fs0).tag
              rw [htag, htr]
              decide
            · show isFailTag (runStrategies env url vid fs0).tag = true
                ↔ isSuccessTag (runStrategies env url vid fs0).tag = false
              rw [htag]
              decide
        · have hf3 : isFalsy
              (tryInvidiousS env vid (tryCobaltS env url (stateA env fs0))).ft = false :=
            bnot_true h3
          have hrun : runStrategies env url vid fs0
              = tryInvidiousS env vid (tryCobaltS env url (stateA env fs0)) := by
            unfold runStrategies
            rw [tryYtdlpS_skip _ _ hf3]
          have htag := tryInvidiousS_tag env vid _ h2 hf3
          have htr : (tryInvidiousS env vid (tryCobaltS env url (stateA env fs0))).tried
              = [Strategy.sA, Strategy.sB, Strategy.sC] := by
            rw [tryInvidiousS_tried _ _ _ h2, tryCobaltS_tried _ _ _ h1, stateA_tried]
            rfl
          rw [hrun, if_neg (by rw [hf3]; exact Bool.false_ne_true)]
          refine ⟨Or.inr (Or.inr (Or.inr (Or.inr (Or.inl htag)))), ?_, ?_⟩
          · show (tryInvidiousS env vid (tryCobaltS env url (stateA env fs0))).tried
              = expectedTried (tryInvidiousS env vid (tryCobaltS env url (stateA env fs0))).tag
            rw [htag, htr]
            decide
          · show isFailTag (tryInvidiousS env vid (tryCobaltS env url (stateA env fs0))).tag
                = true
              ↔ isSuccessTag (tryInvidiousS env vid (tryCobaltS env url (stateA env fs0))).tag
                = false
            rw [htag]
            decide
      · have hf2 : isFalsy (tryCobaltS env url (stateA env fs0)).ft = false := bnot_true h2
        have hrun : runStrategies env url vid fs0
            = tryCobaltS env url (stateA env fs0) := by
          unfold runStrategies
          rw [tryInvidiousS_skip _ _ _ hf2, tryYtdlpS_skip _ _ hf2]
        have htag := tryCobaltS_tag env url _ h1 hf2
        have htr : (tryCobaltS env url (stateA env fs0)).tried
            = [Strategy.sA, Strategy.sB] := by
          rw [tryCobaltS_tried _ _ _ h1, stateA_tried]
          rfl
        rw [hrun, if_neg (by rw [hf2]; exact Bool.false_ne_true)]
        refine ⟨Or.inr (Or.inr (Or.inr (Or.inl htag))), ?_, ?_⟩
        · show (tryCobaltS env url (stateA env fs0)).tried
            = expectedTried (tryCobaltS env url (stateA env fs0)).tag
          rw [htag, htr]
          decide
        · show isFailTag (tryCobaltS env url (stateA env fs0)).tag = true
            ↔ isSuccessTag (tryCobaltS env url (stateA env fs0)).tag = false
          rw [htag]
          decide
    · have hf1 : isFalsy (stateA env fs0).ft = false := bnot_true h1
      have hrun : runStrategies env url vid fs0 = stateA env fs0 := by
        unfold runStrategies
        rw [tryCobaltS_skip _ _ _ hf1, tryInvidiousS_skip _ _ _ hf1, tryYtdlpS_skip _ _ hf1]
      have htag := stateA_tag env fs0 hf1
      rw [hrun, if_neg (by rw [hf1]; exact Bool.false_ne_true)]
      refine ⟨Or.inr (Or.inr (Or.inl htag)), ?_, ?_⟩
      · show (stateA env fs0).tried = expectedTried (stateA env fs0).tag
        rw [htag, stateA_tried]
        decide
      · show isFailTag (stateA env fs0).tag = true ↔ isSuccessTag (stateA env fs0).tag = false
        rw [htag]
        decide

/-- Claim C8: the video id is derived from the `"v="` query form when
present, else from the youtu.be path form; a URL matching neither is a
terminal error returned immediately — no strategy entered, filesystem
untouched. -/
theorem c8_url_forms (env : Env) (url : String) (fs0 : FS) :
    (hasSub url "v=" = false → hasSub url "youtu.be" = false →
      get_video_content env url fs0 = ⟨"錯誤", "無法辨識網址", fs0, [], none⟩) ∧
    (hasSub url "v=" = true →
      (get_video_content env url fs0).vid = some (queryFormId url)) ∧
    (hasSub url "v=" = false → hasSub url "youtu.be" = true →
      (get_video_content env url fs0).vid = some (pathFormId url)) := by
  refine ⟨?_, ?_, ?_⟩
  · intro h1 h2
    have hv : extractVideoId url = none := by simp [extractVideoId, h1, h2]
    simp only [get_video_content, hv]
  · intro h1
    have hv : extractVideoId url = some (queryFormId url) := by simp [extractVideoId, h1]
    simp only [get_video_content, hv]
    split <;> rfl
  · intro h1 h2
    have hv : extractVideoId url = some (pathFormId url) := by
      simp [extractVideoId, h1, h2]
    simp only [get_video_content, hv]
    split <;> rfl

/-- Witness for C8 at three concrete URLs, one per form. -/
theorem c8_url_forms_witness :
    get_video_content envAllFail "hello world" emptyFS
      = ⟨"錯誤", "無法辨識網址", emptyFS, [], none⟩ ∧
    (get_video_content envAllFail "https://www.youtube.com/watch?v=abc123&t=9" emptyFS).vid
      = some (queryFormId "https://www.youtube.com/watch?v=abc123&t=9") ∧
    (get_video_content envAllFail "https://youtu.be/AAAA" emptyFS).vid
      = some (pathFormId "https://youtu.be/AAAA") :=
  ⟨(c8_url_forms envAllFail "hello world" emptyFS).1 (by decide) (by decide),
    (c8_url_forms envAllFail "https://www.youtube.com/watch?v=abc123&t=9" emptyFS).2.1
      (by decide),
    (c8_url_forms envAllFail "https://youtu.be/AAAA" emptyFS).2.2 (by decide) (by decide)⟩

/-- Counterexample to claim C3: the authoritative source lists an English
track first and a target-language (zh-TW) track second; the source's
selection (line 180, `list(transcript_list)[0]`) takes the English track and
the run returns its text, whereas selection by the spec's language-priority
order would take the zh-TW track, whose text differs. -/
theorem c3_counterexample :
    (get_video_content envC3c "https://www.youtube.com/watch?v=abc" emptyFS).tag
      = "CC字幕(官方)" ∧
    (get_video_content envC3c "https://www.youtube.com/watch?v=abc" emptyFS).text
      = "hello" ∧
    codeSelectTrack [⟨"en", ["hello"]⟩, ⟨"zh-TW", ["哈囉"]⟩] = some ⟨"en", ["hello"]⟩ ∧
    specSelectTrack [⟨"en", ["hello"]⟩, ⟨"zh-TW", ["哈囉"]⟩] = some ⟨"zh-TW", ["哈囉"]⟩ ∧
    pyJoin " " ["哈囉"] ≠ "hello" :=
  ⟨by decide, by decide, by decide, by decide, by decide⟩

/-- Claim C3 as amended: when the authoritative source returns a non-empty
track list, the Transcript Fetcher unconditionally selects the *first*
track in the returned list (no language-priority pass exists in the code),
and the selected track's text segments are concatenated with single-space
joins; when that join is non-empty the run returns it tagged as the
official-captions strategy without entering any later strategy. -/
theorem c3_amended_first_track (env : Env) (url : String) (fs0 : FS) (t : Track)
    (rest : List Track) (vid : String)
    (hv : extractVideoId url = some vid)
    (hl : env.listTranscripts = some (t :: rest))
    (hne : (pyJoin " " t.segments).data.isEmpty = false) :
    (get_video_content env url fs0).tag = "CC字幕(官方)" ∧
    (get_video_content env url fs0).text = pyJoin " " t.segments ∧
    (get_video_content env url fs0).tried = [Strategy.sA] := by
  have hA : stateA env fs0
      = ⟨some (pyJoin " " t.segments), "CC字幕(官方)", fs0, [Strategy.sA]⟩ := by
    unfold stateA
    rw [hl]
  have hf : isFalsy (stateA env fs0).ft = false := by
    rw [hA]
    simpa [isFalsy] using hne
  have hrun : runStrategies env url vid fs0 = stateA env fs0 := by
    unfold runStrategies
    rw [tryCobaltS_skip _ _ _ hf, tryInvidiousS_skip _ _ _ hf, tryYtdlpS_skip _ _ hf]
  simp only [get_video_content, hv]
  rw [hrun, if_neg (by rw [hf]; exact Bool.false_ne_true), hA]
  exact ⟨rfl, rfl, rfl⟩

/-- Witness for the amended C3 at the concrete two-track list. -/
theorem c3_amended_first_track_witness :
    (get_video_content envC3c "https://www.youtube.com/watch?v=abc" emptyFS).tag
      = "CC字幕(官方)" ∧
    (get_video_content envC3c "https://www.youtube.com/watch?v=abc" emptyFS).text
      = pyJoin " " ["hello"] ∧
    (get_video_content envC3c "https://www.youtube.com/watch?v=abc" emptyFS).tried
      = [Strategy.sA] :=
  c3_amended_first_track envC3c "https://www.youtube.com/watch?v=abc" emptyFS
    ⟨"en", ["hello"]⟩ [⟨"zh-TW", ["哈囉"]⟩] "abc" (by decide) rfl (by decide)

theorem tryCobaltS_success (env : Env) (url : String) (s : StState) (p : String)
    (fs1 : FS) (sz : Nat) (t : String)
    (h : isFalsy s.ft = true)
    (hdl : download_via_cobalt env.cobalt url env.cobaltOrder s.fs = (some p, fs1))
    (hfs1 : fs1 p = some sz)
    (hg : env.groq p sz = some t) :
    tryCobaltS env url s
      = ⟨some t, "語音轉錄(Cobalt)", removeFile fs1 p, s.tried ++ [Strategy.sB]⟩ := by
  unfold tryCobaltS
  rw [if_pos h]
  simp only [hdl, hfs1, Option.getD_some, hg]

theorem tryInvidiousS_success (env : Env) (vid : String) (s : StState) (p : String)
    (fs1 : FS) (sz : Nat) (t : String)
    (h : isFalsy s.ft = true)
    (hdl : download_via_invidious env.inv vid env.invOrder s.fs = (some p, fs1))
    (hfs1 : fs1 p = some sz)
    (hg : env.groq p sz = some t) :
    tryInvidiousS env vid s
      = ⟨some t, "語音轉錄(Invidious)", removeFile fs1 p, s.tried ++ [Strategy.sC]⟩ := by
  unfold tryInvidiousS
  rw [if_pos h]
  simp only [hdl, hfs1, Option.getD_some, hg]

theorem tryYtdlpS_success (env : Env) (s : StState) (nm : String) (size : Nat)
    (t : String)
    (h : isFalsy s.ft = true)
    (hyt : env.ytdlp = YtdlpStep.file nm size)
    (hsz : 10240 < size)
    (hg : env.groq nm size = some t) :
    tryYtdlpS env s
      = ⟨some t, "語音轉錄(yt-dlp)", removeFile (setFile s.fs nm size) nm,
          s.tried ++ [Strategy.sD]⟩ := by
  unfold tryYtdlpS
  rw [if_pos h]
  simp only [hyt, if_pos hsz, hg]

/-- Counterexample to claim C2: Cobalt serves a 30 MB artifact
(31457280 bytes, above the spec's ~24 MB threshold); the code still sends
the full bytes to the fast whisper capability (there is no size branch and
no upload-and-poll capability in the source), the run's text is that
capability's output, and `process_video_task` *does* invoke
`summarize_text` on it — its output appears in the pushed message. -/
theorem c2_counterexample :
    (download_via_cobalt envC2c.cobalt "https://www.youtube.com/watch?v=abc"
        envC2c.cobaltOrder emptyFS).2 "/tmp/abc_cob.mp3" = some 31457280 ∧
    24 * 1024 * 1024 ≤ 31457280 ∧
    (get_video_content envC2c "https://www.youtube.com/watch?v=abc" emptyFS).tag
      = "語音轉錄(Cobalt)" ∧
    (get_video_content envC2c "https://www.youtube.com/watch?v=abc" emptyFS).text
      = "transcribed" ∧
    process_video_task envC2c (genOk "SUM") ["k"] "https://www.youtube.com/watch?v=abc"
        emptyFS
      = "✅ 分析完成 (語音轉錄(Cobalt))\n\nSUM" ∧
    (summarize_text (genOk "SUM") ["k"] "transcribed").2 = [("k", "gemini-2.5-flash")] :=
  ⟨by decide, by decide, by decide, by decide, by decide, by decide⟩

/-- Claim C2 as amended: every acquired audio artifact — obtained by
Cobalt, Invidious, or yt-dlp, of any size including at or above 24 MB — is
transcribed by sending its full bytes to the single fast speech-to-text
capability (the whisper oracle); there is no size-threshold routing and no
upload-and-poll path in the source; and `process_video_task` invokes
`summarize_text` on the acquired text for every non-failure outcome, so
the large-file case is never exempt from re-summarization. -/
theorem c2_amended_no_size_routing :
    (∀ (env : Env) (url vid : String) (fs0 : FS) (p : String) (sz : Nat) (t : String),
      extractVideoId url = some vid →
      isFalsy (stateA env fs0).ft = true →
      (download_via_cobalt env.cobalt url env.cobaltOrder fs0).1 = some p →
      (download_via_cobalt env.cobalt url env.cobaltOrder fs0).2 p = some sz →
      24 * 1024 * 1024 ≤ sz →
      env.groq p sz = some t →
      t.data.isEmpty = false →
      (get_video_content env url fs0).tag = "語音轉錄(Cobalt)" ∧
      (get_video_content env url fs0).text = t) ∧
    (∀ (env : Env) (url vid : String) (fs0 : FS) (p : String) (sz : Nat) (t : String),
      extractVideoId url = some vid →
      isFalsy (tryCobaltS env url (stateA env fs0)).ft = true →
      (download_via_invidious env.inv vid env.invOrder
          (tryCobaltS env url (stateA env fs0)).fs).1 = some p →
      (download_via_invidious env.inv vid env.invOrder
          (tryCobaltS env url (stateA env fs0)).fs).2 p = some sz →
      24 * 1024 * 1024 ≤ sz →
      env.groq p sz = some t →
      t.data.isEmpty = false →
      (get_video_content env url fs0).tag = "語音轉錄(Invidious)" ∧
      (get_video_content env url fs0).text = t) ∧
    (∀ (env : Env) (url vid : String) (fs0 : FS) (nm : String) (size : Nat) (t : String),
      extractVideoId url = some vid →
      isFalsy (tryInvidiousS env vid (tryCobaltS env url (stateA env fs0))).ft = true →
      env.ytdlp = YtdlpStep.file nm size →
      24 * 1024 * 1024 ≤ size →
      env.groq nm size = some t →
      t.data.isEmpty = false →
      (get_video_content env url fs0).tag = "語音轉錄(yt-dlp)" ∧
      (get_video_content env url fs0).text = t) ∧
    (∀ (env : Env) (gen : String → String → String → Except String String)
        (keys : List String) (url : String) (fs0 : FS),
      isFailTag (get_video_content env url fs0).tag = false →
      process_video_task env gen keys url fs0
        = "✅ 分析完成 (" ++ (get_video_content env url fs0).tag ++ ")\n\n"
          ++ (summarize_text gen keys (get_video_content env url fs0).text).1) := by
  refine ⟨?_, ?_, ?_, ?_⟩
  · intro env url vid fs0 p sz t hv hA hd hsz _hbig hg ht
    have hd2 : (download_via_cobalt env.cobalt url env.cobaltOrder (stateA env fs0).fs).1
        = some p := by
      rw [stateA_fs]
      exact hd
    have hsz2 : (download_via_cobalt env.cobalt url
        env.cobaltOrder (stateA env fs0).fs).2 p = some sz := by
      rw [stateA_fs]
      exact hsz
    have hdl : download_via_cobalt env.cobalt url env.cobaltOrder (stateA env fs0).fs
        = (some p,
          (download_via_cobalt env.cobalt url env.cobaltOrder (stateA env fs0).fs).2) := by
      rw [← hd2]
    have hB := tryCobaltS_success env url (stateA env fs0) p
      (download_via_cobalt env.cobalt url env.cobaltOrder (stateA env fs0).fs).2 sz t
      hA hdl hsz2 hg
    have hfB : isFalsy (tryCobaltS env url (stateA env fs0)).ft = false := by
      rw [hB]
      simpa [isFalsy] using ht
    have hrun : runStrategies env url vid fs0 = tryCobaltS env url (stateA env fs0) := by
      unfold runStrategies
      rw [tryInvidiousS_skip _ _ _ hfB, tryYtdlpS_skip _ _ hfB]
    have hout : get_video_content env url fs0
        = ⟨"語音轉錄(Cobalt)", t,
            removeFile
              (download_via_cobalt env.cobalt url env.cobaltOrder (stateA env fs0).fs).2 p,
            (stateA env fs0).tried ++ [Strategy.sB], some vid⟩ := by
      simp only [get_video_content, hv]
      rw [hrun, if_neg (by rw [hfB]; exact Bool.false_ne_true), hB]
      rfl
    exact ⟨by rw [hout], by rw [hout]⟩
  · intro env url vid fs0 p sz t hv h2 hd hsz _hbig hg ht
    have hdl : download_via_invidious env.inv vid env.invOrder
        (tryCobaltS env url (stateA env fs0)).fs
        = (some p, (download_via_invidious env.inv vid env.invOrder
            (tryCobaltS env url (stateA env fs0)).fs).2) := by
      rw [← hd]
    have hC := tryInvidiousS_success env vid (tryCobaltS env url (stateA env fs0)) p
      (download_via_invidious env.inv vid env.invOrder
        (tryCobaltS env url (stateA env fs0)).fs).2 sz t h2 hdl hsz hg
    have hfC : isFalsy
        (tryInvidiousS env vid (tryCobaltS env url (stateA env fs0))).ft = false := by
      rw [hC]
      simpa [isFalsy] using ht
    have hrun : runStrategies env url vid fs0
        = tryInvidiousS env vid (tryCobaltS env url (stateA env fs0)) := by
      unfold runStrategies
      rw [tryYtdlpS_skip _ _ hfC]
    have hout : get_video_content env url fs0
        = ⟨"語音轉錄(Invidious)", t,
            removeFile (download_via_invidious env.inv vid env.invOrder
              (tryCobaltS env url (stateA env fs0)).fs).2 p,
            (tryCobaltS env url (stateA env fs0)).tried ++ [Strategy.sC], some vid⟩ := by
      simp only [get_video_content, hv]
      rw [hrun, if_neg (by rw [hfC]; exact Bool.false_ne_true), hC]
      rfl
    exact ⟨by rw [hout], by rw [hout]⟩
  · intro env url vid fs0 nm size t hv h3 hyt hbig hg ht
    have hsz : 10240 < size := by omega
    have hD := tryYtdlpS_success env
      (tryInvidiousS env vid (tryCobaltS env url (stateA env fs0))) nm size t h3 hyt hsz hg
    have hfD : isFalsy
        (tryYtdlpS env (tryInvidiousS env vid (tryCobaltS env url (stateA env fs0)))).ft
        = false := by
      rw [hD]
      simpa [isFalsy] using ht
    have hrun : runStrategies env url vid fs0
        = tryYtdlpS env (tryInvidiousS env vid (tryCobaltS env url (stateA env fs0))) := rfl
    have hout : get_video_content env url fs0
        = ⟨"語音轉錄(yt-dlp)", t,
            removeFile (setFile
              (tryInvidiousS env vid (tryCobaltS env url (stateA env fs0))).fs nm size) nm,
            (tryInvidiousS env vid (tryCobaltS env url (stateA env fs0))).tried
              ++ [Strategy.sD], some vid⟩ := by
      simp only [get_video_content, hv]
      rw [hrun, if_neg (by rw [hfD]; exact Bool.false_ne_true), hD]
      rfl
    exact ⟨by rw [hout], by rw [hout]⟩
  · intro env gen keys url fs0 hft
    have h1 : ((get_video_content env url fs0).tag == "錯誤") = false ∧
        ((get_video_content env url fs0).tag == "失敗") = false := by
      simpa [isFailTag, Bool.or_eq_false_iff] using hft
    have hcond : (((get_video_content env url fs0).tag == "失敗")
        || ((get_video_content env url fs0).tag == "錯誤")) = false :=
      Bool.or_eq_false_iff.mpr ⟨h1.2, h1.1⟩
    simp only [process_video_task, hcond]
    simp

/-- Witness for the amended C2: three concrete 30 MB runs, one per
acquisition strategy, plus the generation-invoker conjunct at the Cobalt
run. -/
theorem c2_amended_no_size_routing_witness :
    (get_video_content envC2c "https://www.youtube.com/watch?v=abc" emptyFS).tag
      = "語音轉錄(Cobalt)" ∧
    (get_video_content envC2i "https://www.youtube.com/watch?v=abc" emptyFS).tag
      = "語音轉錄(Invidious)" ∧
    (get_video_content envC2y "https://www.youtube.com/watch?v=abc" emptyFS).tag
      = "語音轉錄(yt-dlp)" ∧
    process_video_task envC2c (genOk "SUM") ["k"] "https://www.youtube.com/watch?v=abc"
        emptyFS
      = "✅ 分析完成 ("
        ++ (get_video_content envC2c "https://www.youtube.com/watch?v=abc" emptyFS).tag
        ++ ")\n\n"
        ++ (summarize_text (genOk "SUM") ["k"]
          (get_video_content envC2c "https://www.youtube.com/watch?v=abc" emptyFS).text).1 :=
  ⟨(c2_amended_no_size_routing.1 envC2c "https://www.youtube.com/watch?v=abc" "abc"
      emptyFS "/tmp/abc_cob.mp3" 31457280 "transcribed" (by decide) (by decide)
      (by decide) (by decide) (by decide) rfl (by decide)).1,
    (c2_amended_no_size_routing.2.1 envC2i "https://www.youtube.com/watch?v=abc" "abc"
      emptyFS "/tmp/abc_inv.mp3" 31457280 "transcribed" (by decide) (by decide)
      (by decide) (by decide) (by decide) rfl (by decide)).1,
    (c2_amended_no_size_routing.2.2.1 envC2y "https://www.youtube.com/watch?v=abc" "abc"
      emptyFS "/tmp/abc.webm" 31457280 "transcribed" (by decide) (by decide) rfl
      (by decide) rfl (by decide)).1,
    c2_amended_no_size_routing.2.2.2 envC2c (genOk "SUM") ["k"]
      "https://www.youtube.com/watch?v=abc" emptyFS (by decide)⟩

end YTAI
